import Mathlib

/-!
Verification of the PBD cloth simulator with Long Range Attachments
(`src/long-range-attachments.cpp`).

The simulation core is embedded shallowly over the reals: a `Vec3` of real
components stands for `glm::vec3`, a `List Particle` for the global particle
store `P`, and the global constraint vectors become lists inside `SimState`.
Each C++ function (`buildScene`, `projectLocal`, `projectLRA`, `simulate`)
is translated statement by statement; the tunable globals (`g_iterations`,
`g_useLRA`, `g_lraSlack`) are passed as arguments, and the float constants
(`dt`, gravity, damping, the `1e-6` epsilon and the `1e30` sentinel) become
exact rational literals in ℝ.
-/

namespace LRA

noncomputable section

/-- 3-component vector standing for `glm::vec3`. -/
structure Vec3 where
  x : ℝ
  y : ℝ
  z : ℝ
  deriving DecidableEq

namespace Vec3

def add (a b : Vec3) : Vec3 := ⟨a.x + b.x, a.y + b.y, a.z + b.z⟩

def sub (a b : Vec3) : Vec3 := ⟨a.x - b.x, a.y - b.y, a.z - b.z⟩

/-- Componentwise scalar multiplication, `v * t` / `t * v`. -/
def smul (t : ℝ) (a : Vec3) : Vec3 := ⟨t * a.x, t * a.y, t * a.z⟩

/-- Componentwise scalar division, `v / t`. -/
def vdiv (a : Vec3) (t : ℝ) : Vec3 := ⟨a.x / t, a.y / t, a.z / t⟩

instance : Add Vec3 := ⟨add⟩

instance : Sub Vec3 := ⟨sub⟩

def zero : Vec3 := ⟨0, 0, 0⟩

instance : Inhabited Vec3 := ⟨zero⟩

/-- Dot product, `glm::dot`. -/
def dot (a b : Vec3) : ℝ := a.x * b.x + a.y * b.y + a.z * b.z

/-- Euclidean norm, `glm::length`. -/
def len (a : Vec3) : ℝ := Real.sqrt (dot a a)

theorem add_def (a b : Vec3) : a + b = ⟨a.x + b.x, a.y + b.y, a.z + b.z⟩ := rfl

theorem sub_def (a b : Vec3) : a - b = ⟨a.x - b.x, a.y - b.y, a.z - b.z⟩ := rfl

theorem dot_self_nonneg (a : Vec3) : 0 ≤ dot a a := by
  have hx : 0 ≤ a.x * a.x := mul_self_nonneg _
  have hy : 0 ≤ a.y * a.y := mul_self_nonneg _
  have hz : 0 ≤ a.z * a.z := mul_self_nonneg _
  unfold dot; linarith

theorem len_nonneg (a : Vec3) : 0 ≤ len a := Real.sqrt_nonneg _

/-- The norm of a scalar multiple. -/
theorem len_smul (t : ℝ) (a : Vec3) : len (smul t a) = |t| * len a := by
  unfold len smul dot
  have : (t * a.x * (t * a.x) + t * a.y * (t * a.y) + t * a.z * (t * a.z))
      = t ^ 2 * (a.x * a.x + a.y * a.y + a.z * a.z) := by ring
  simp only [this]
  rw [Real.sqrt_mul (sq_nonneg t), Real.sqrt_sq_eq_abs]

end Vec3

export Vec3 (dot len smul vdiv)

/-- Simulation constants: `dt = 1/60`, gravity `(0, -9.8, 0)`, and the drag
factor `0.99` from the velocity update. -/
def dt : ℝ := 1 / 60

def g : Vec3 := ⟨0, -(49 / 5), 0⟩

def damping : ℝ := 99 / 100

/-- Particle record, `struct Particle`. -/
structure Particle where
  p : Vec3
  old_p : Vec3
  v : Vec3
  w : ℝ
  pinned : Bool

instance : Inhabited Particle := ⟨⟨Vec3.zero, Vec3.zero, Vec3.zero, 0, false⟩⟩

/-- Local distance constraint, `struct LocalConstraint`. -/
structure LocalConstraint where
  i : ℕ
  j : ℕ
  restLen : ℝ

/-- Long-range attachment constraint, `struct LRAConstraint`. -/
structure LRAConstraint where
  particleIdx : ℕ
  attachmentIdx : ℕ
  maxDist : ℝ

/-- The mutable globals of the simulation core: the particle store `P`, the
two constraint vectors and the pinned-particle index list. -/
structure SimState where
  P : List Particle
  localConstraints : List LocalConstraint
  lraConstraints : List LRAConstraint
  attachmentIndices : List ℕ

/-- Row-major index, `idx(x, y) = y * clothW + x`. -/
def idx (W x y : ℕ) : ℕ := y * W + x

/-- One particle of the initial grid: position
`((x - (W-1)*0.5) * spacing, (H-1-y) * spacing, 0)`, `old_p = p`, zero
velocity, and inverse mass / pin flag from the pin predicate. -/
def initParticle (W H : ℕ) (spacing : ℝ) (pinQ : ℕ → ℕ → Bool) (x y : ℕ) :
    Particle :=
  let pos : Vec3 := ⟨((x : ℝ) - ((W : ℝ) - 1) * (1 / 2)) * spacing,
                     (((H : ℝ) - 1) - (y : ℝ)) * spacing, 0⟩
  if pinQ x y then ⟨pos, pos, Vec3.zero, 0, true⟩
  else ⟨pos, pos, Vec3.zero, 1, false⟩

/-- The pin predicate hard-coded in `buildScene`: the two top corners,
`y == 0 && (x == 0 || x == clothW - 1)`. -/
def topCorners (W : ℕ) (x y : ℕ) : Bool := y == 0 && (x == 0 || x == W - 1)

/-- The candidate distance examined by the attachment scan:
`length(P[i].p - P[attachID].p)`. -/
def scanDist (Ps : List Particle) (pos : Vec3) (a : ℕ) : ℝ :=
  len (pos - (Ps.getD a default).p)

/-- One step of the attachment scan: update `(bestAttach, minInitDist)`
whenever `d < minInitDist`. -/
def scanStep (Ps : List Particle) (pos : Vec3) (acc : Option ℕ × ℝ)
    (a : ℕ) : Option ℕ × ℝ :=
  let d := scanDist Ps pos a
  if d < acc.2 then (some a, d) else acc

/-- The scan over `attachmentIndices` picking the closest attachment:
accumulator `(bestAttach, minInitDist)`, started at `(-1, 1e30)` (the `-1`
sentinel is rendered as `none`), updated whenever `d < minInitDist`. -/
def findNearest (Ps : List Particle) (pos : Vec3) (attach : List ℕ) :
    Option ℕ × ℝ :=
  attach.foldl (scanStep Ps pos) (none, 10 ^ 30)

/-- The body of the LRA-construction loop for particle `i`: skip pinned
particles, otherwise scan the attachments and, when one was found
(`bestAttach != -1`), emit the constraint. -/
def lraFor (Ps : List Particle) (attach : List ℕ) (i : ℕ) :
    Option LRAConstraint :=
  if (Ps.getD i default).pinned then none
  else
    match findNearest Ps (Ps.getD i default).p attach with
    | (some bestAttach, minInitDist) => some ⟨i, bestAttach, minInitDist⟩
    | (none, _) => none

/-- The builder `buildScene`, parameterised by the grid size, the spacing and the pin
predicate (the program calls it with `clothW`, `clothH`, `spacing` and
`topCorners`): initialises the particles row-major, records pinned indices,
adds a local constraint per horizontal/vertical grid edge with `restLen` the
current distance, and one LRA constraint per free particle pointing to the
nearest attachment in the rest pose. -/
def buildScene (W H : ℕ) (spacing : ℝ) (pinQ : ℕ → ℕ → Bool) : SimState :=
  let Ps : List Particle :=
    (List.range H).flatMap fun y =>
      (List.range W).map fun x => initParticle W H spacing pinQ x y
  let attach : List ℕ :=
    (List.range H).flatMap fun y =>
      (List.range W).filterMap fun x =>
        if pinQ x y then some (idx W x y) else none
  let edge : ℕ → ℕ → LocalConstraint := fun a b =>
    ⟨a, b, len ((Ps.getD a default).p - (Ps.getD b default).p)⟩
  let locals : List LocalConstraint :=
    (List.range H).flatMap fun y =>
      (List.range W).flatMap fun x =>
        (if x + 1 < W then [edge (idx W x y) (idx W (x + 1) y)] else []) ++
        (if y + 1 < H then [edge (idx W x y) (idx W x (y + 1))] else [])
  let lras : List LRAConstraint :=
    (List.range (W * H)).filterMap (lraFor Ps attach)
  ⟨Ps, locals, lras, attach⟩

/-- The local projection `projectLocal`: standard PBD distance projection. Skips when the current
distance is under `1e-6` or the combined inverse mass is under `1e-6`;
otherwise moves each non-pinned endpoint by its inverse-mass share of the
correction (the second write re-reads the store, mirroring the C++
reference semantics). -/
def projectLocal (st : SimState) (c : LocalConstraint) : SimState :=
  let p1 := st.P.getD c.i default
  let p2 := st.P.getD c.j default
  let dir := p1.p - p2.p
  let dist := len dir
  if dist < 1 / 1000000 then st
  else
    let correction := (dist - c.restLen) * (1 - 0)
    let grad := vdiv dir dist
    let wSum := p1.w + p2.w
    if wSum < 1 / 1000000 then st
    else
      let dp := smul (-correction) grad
      let P1 :=
        if p1.pinned then st.P
        else st.P.set c.i { p1 with p := p1.p + smul (p1.w / wSum) dp }
      let q2 := P1.getD c.j default
      let P2 :=
        if p2.pinned then P1
        else P1.set c.j { q2 with p := q2.p - smul (p2.w / wSum) dp }
      { st with P := P2 }

/-- The LRA projection `projectLRA`: unilateral long-range attachment projection with slack.
Only when the current distance to the anchor exceeds
`limit = maxDist * slack` (and is at least `1e-6`) is the particle placed
back on the sphere of radius `limit` around the anchor. -/
def projectLRA (slack : ℝ) (st : SimState) (c : LRAConstraint) : SimState :=
  let p := st.P.getD c.particleIdx default
  let attach := st.P.getD c.attachmentIdx default
  let dir := p.p - attach.p
  let currentDist := len dir
  let limit := c.maxDist * slack
  if currentDist > limit then
    if currentDist < 1 / 1000000 then st
    else
      { st with
        P := st.P.set c.particleIdx
          { p with p := attach.p + smul (limit / currentDist) dir } }
  else st

/-- Step 1 of `simulate` on one particle: skip if pinned, else
`v += g * dt; old_p = p; p += v * dt` (the updated velocity is used). -/
def predictParticle (q : Particle) : Particle :=
  if q.pinned then q
  else
    let v1 := q.v + smul dt g
    { q with v := v1, old_p := q.p, p := q.p + smul dt v1 }

/-- Step 3 of `simulate` on one particle: skip if pinned, else
`v = (p - old_p) / dt; v *= 0.99`. -/
def reconcileParticle (q : Particle) : Particle :=
  if q.pinned then q
  else { q with v := smul damping (vdiv (q.p - q.old_p) dt) }

/-- One projection iteration: every local constraint in construction order,
then — iff `useLRA` — every LRA constraint in construction order. -/
def onePass (useLRA : Bool) (slack : ℝ) (st : SimState) : SimState :=
  let st1 := st.localConstraints.foldl projectLocal st
  if useLRA then st1.lraConstraints.foldl (projectLRA slack) st1 else st1

/-- The `for (int iter = 0; iter < g_iterations; ++iter)` loop. -/
def doIterations (useLRA : Bool) (slack : ℝ) : ℕ → SimState → SimState
  | 0, st => st
  | n + 1, st => doIterations useLRA slack n (onePass useLRA slack st)

/-- One tick, `simulate`: predict, project `iterations` times, reconcile velocity.
The tunable globals `g_iterations`, `g_useLRA`, `g_lraSlack` are passed as
arguments. -/
def simulate (st : SimState) (iterations : ℕ) (useLRA : Bool) (slack : ℝ) :
    SimState :=
  let st1 := { st with P := st.P.map predictParticle }
  let st2 := doIterations useLRA slack iterations st1
  { st2 with P := st2.P.map reconcileParticle }

/-- One tick's parameters: `(iterations, useLRA, slack)`. -/
abbrev Tick := ℕ × Bool × ℝ

/-- Run a sequence of ticks. -/
def runTicks (st : SimState) (ticks : List Tick) : SimState :=
  ticks.foldl (fun s t => simulate s t.1 t.2.1 t.2.2) st

/-- The trajectory of a run: the state after each successive tick. -/
def trajectory (st : SimState) (ticks : List Tick) : List SimState :=
  (ticks.scanl (fun s t => simulate s t.1 t.2.1 t.2.2) st).tail

/-! ## Helper lemmas -/

theorem getD_set_self {α : Type _} [Inhabited α] (l : List α) (n : ℕ) (a : α)
    (h : n < l.length) : (l.set n a).getD n default = a := by
  simp [List.getD_eq_getElem?_getD, List.getElem?_set_self, h]

theorem getD_set_ne {α : Type _} [Inhabited α] (l : List α) (m n : ℕ) (a : α)
    (h : m ≠ n) : (l.set m a).getD n default = l.getD n default := by
  simp [List.getD_eq_getElem?_getD, List.getElem?_set_ne, h]

theorem Vec3.eq_of_comps (a b : Vec3) (hx : a.x = b.x) (hy : a.y = b.y)
    (hz : a.z = b.z) : a = b := by
  cases a; cases b; simp_all

theorem Vec3.add_sub_cancel_left (a b : Vec3) : (a + b) - a = b :=
  Vec3.eq_of_comps _ _ (by show a.x + b.x - a.x = b.x; ring)
    (by show a.y + b.y - a.y = b.y; ring) (by show a.z + b.z - a.z = b.z; ring)

/-- Within the limit, `projectLRA` does nothing. -/
theorem projectLRA_of_le (slack : ℝ) (st : SimState) (c : LRAConstraint)
    (h : len ((st.P.getD c.particleIdx default).p -
          (st.P.getD c.attachmentIdx default).p) ≤ c.maxDist * slack) :
    projectLRA slack st c = st := by
  unfold projectLRA
  rw [if_neg (not_lt.mpr h)]

/-- Beyond the limit, `projectLRA` rewrites the particle to
`attach.p + dir * (limit / currentDist)`. -/
theorem projectLRA_of_gt (slack : ℝ) (st : SimState) (c : LRAConstraint)
    (h : c.maxDist * slack <
      len ((st.P.getD c.particleIdx default).p -
        (st.P.getD c.attachmentIdx default).p))
    (h2 : 1 / 1000000 ≤
      len ((st.P.getD c.particleIdx default).p -
        (st.P.getD c.attachmentIdx default).p)) :
    projectLRA slack st c =
      { st with
        P := st.P.set c.particleIdx
          { st.P.getD c.particleIdx default with
            p := (st.P.getD c.attachmentIdx default).p +
              smul (c.maxDist * slack /
                len ((st.P.getD c.particleIdx default).p -
                  (st.P.getD c.attachmentIdx default).p))
                ((st.P.getD c.particleIdx default).p -
                  (st.P.getD c.attachmentIdx default).p) } } := by
  unfold projectLRA
  rw [if_pos h, if_neg (not_lt.mpr h2)]

/-- Either `projectLRA` returns the state unchanged or it overwrites exactly the
position of the particle at `c.particleIdx`. -/
theorem projectLRA_cases (slack : ℝ) (st : SimState) (c : LRAConstraint) :
    projectLRA slack st c = st ∨
    ∃ u : Vec3, projectLRA slack st c =
      { st with
        P := st.P.set c.particleIdx
          ({ st.P.getD c.particleIdx default with p := u }) } := by
  by_cases h1 : c.maxDist * slack <
      len ((st.P.getD c.particleIdx default).p -
        (st.P.getD c.attachmentIdx default).p)
  · by_cases h2 : len ((st.P.getD c.particleIdx default).p -
        (st.P.getD c.attachmentIdx default).p) < 1 / 1000000
    · left
      unfold projectLRA
      rw [if_pos h1, if_pos h2]
    · right
      exact ⟨_, projectLRA_of_gt slack st c h1 (not_lt.mp h2)⟩
  · left
    exact projectLRA_of_le slack st c (not_lt.mp h1)

/-- Entries other than `c.particleIdx` are untouched by `projectLRA`. -/
theorem projectLRA_getD_ne (slack : ℝ) (st : SimState) (c : LRAConstraint)
    (j : ℕ) (hj : j ≠ c.particleIdx) :
    (projectLRA slack st c).P.getD j default = st.P.getD j default := by
  rcases projectLRA_cases slack st c with h | ⟨u, h⟩
  · rw [h]
  · rw [h]
    exact getD_set_ne st.P c.particleIdx j _ fun e => hj e.symm

theorem projectLRA_length (slack : ℝ) (st : SimState) (c : LRAConstraint) :
    (projectLRA slack st c).P.length = st.P.length := by
  rcases projectLRA_cases slack st c with h | ⟨u, h⟩
  · rw [h]
  · rw [h]
    exact List.length_set st.P c.particleIdx _

theorem projectLRA_constraints (slack : ℝ) (st : SimState) (c : LRAConstraint) :
    (projectLRA slack st c).localConstraints = st.localConstraints ∧
    (projectLRA slack st c).lraConstraints = st.lraConstraints ∧
    (projectLRA slack st c).attachmentIndices = st.attachmentIndices := by
  rcases projectLRA_cases slack st c with h | ⟨u, h⟩ <;> rw [h] <;>
    exact ⟨rfl, rfl, rfl⟩

/-- Rewriting only the position of the entry at `n` leaves every other field
of the entry at `n` as read through `getD` unchanged. -/
theorem fields_after_set (l : List Particle) (n : ℕ) (u : Vec3) :
    ((l.set n ({ l.getD n default with p := u })).getD n default).old_p =
      (l.getD n default).old_p ∧
    ((l.set n ({ l.getD n default with p := u })).getD n default).v =
      (l.getD n default).v ∧
    ((l.set n ({ l.getD n default with p := u })).getD n default).w =
      (l.getD n default).w ∧
    ((l.set n ({ l.getD n default with p := u })).getD n default).pinned =
      (l.getD n default).pinned := by
  by_cases hb : n < l.length
  · rw [getD_set_self _ _ _ hb]
    exact ⟨rfl, rfl, rfl, rfl⟩
  · rw [List.set_eq_of_length_le (le_of_not_lt hb)]
    exact ⟨rfl, rfl, rfl, rfl⟩

/-- All fields but the position of the particle at `c.particleIdx` survive
`projectLRA`. -/
theorem projectLRA_fields (slack : ℝ) (st : SimState) (c : LRAConstraint) :
    ((projectLRA slack st c).P.getD c.particleIdx default).old_p =
      (st.P.getD c.particleIdx default).old_p ∧
    ((projectLRA slack st c).P.getD c.particleIdx default).v =
      (st.P.getD c.particleIdx default).v ∧
    ((projectLRA slack st c).P.getD c.particleIdx default).w =
      (st.P.getD c.particleIdx default).w ∧
    ((projectLRA slack st c).P.getD c.particleIdx default).pinned =
      (st.P.getD c.particleIdx default).pinned := by
  rcases projectLRA_cases slack st c with h | ⟨u, h⟩
  · rw [h]; exact ⟨rfl, rfl, rfl, rfl⟩
  · rw [h]
    exact fields_after_set st.P c.particleIdx u

theorem Vec3.one_smul (a : Vec3) : smul 1 a = a :=
  Vec3.eq_of_comps _ _ (by show 1 * a.x = a.x; ring)
    (by show 1 * a.y = a.y; ring) (by show 1 * a.z = a.z; ring)

/-- The distance to the anchor after a projecting `projectLRA` step is
exactly the limit `maxDist * slack`. -/
theorem projectLRA_dist_of_gt (slack : ℝ) (st : SimState) (c : LRAConstraint)
    (h1 : c.maxDist * slack <
      len ((st.P.getD c.particleIdx default).p -
        (st.P.getD c.attachmentIdx default).p))
    (h2 : 1 / 1000000 ≤
      len ((st.P.getD c.particleIdx default).p -
        (st.P.getD c.attachmentIdx default).p))
    (hlim : 0 ≤ c.maxDist * slack)
    (hne : c.particleIdx ≠ c.attachmentIdx)
    (hb : c.particleIdx < st.P.length) :
    len (((projectLRA slack st c).P.getD c.particleIdx default).p -
        ((projectLRA slack st c).P.getD c.attachmentIdx default).p) =
      c.maxDist * slack := by
  have hP : (projectLRA slack st c).P =
      st.P.set c.particleIdx
        ({ st.P.getD c.particleIdx default with
           p := (st.P.getD c.attachmentIdx default).p +
             smul (c.maxDist * slack /
               len ((st.P.getD c.particleIdx default).p -
                 (st.P.getD c.attachmentIdx default).p))
               ((st.P.getD c.particleIdx default).p -
                 (st.P.getD c.attachmentIdx default).p) }) := by
    rw [projectLRA_of_gt slack st c h1 h2]
  rw [hP, getD_set_self _ _ _ hb, getD_set_ne _ _ _ _ hne]
  simp only [Vec3.add_sub_cancel_left, Vec3.len_smul]
  rw [abs_of_nonneg (div_nonneg hlim (le_trans (by norm_num) h2))]
  exact div_mul_cancel₀ _ (ne_of_gt (lt_of_lt_of_le (by norm_num) h2))

/-- The equation of `projectLocal` with neither degenerate guard triggered. -/
theorem projectLocal_eq (st : SimState) (c : LocalConstraint)
    (hd : ¬ len ((st.P.getD c.i default).p - (st.P.getD c.j default).p)
        < 1 / 1000000)
    (hw : ¬ (st.P.getD c.i default).w + (st.P.getD c.j default).w
        < 1 / 1000000) :
    projectLocal st c =
      (let p1 := st.P.getD c.i default
       let p2 := st.P.getD c.j default
       let dir := p1.p - p2.p
       let dist := len dir
       let dp := smul (-((dist - c.restLen) * (1 - 0))) (vdiv dir dist)
       let P1 := if p1.pinned then st.P
         else st.P.set c.i { p1 with p := p1.p + smul (p1.w / (p1.w + p2.w)) dp }
       let q2 := P1.getD c.j default
       let P2 := if p2.pinned then P1
         else P1.set c.j { q2 with p := q2.p - smul (p2.w / (p1.w + p2.w)) dp }
       { st with P := P2 }) := by
  unfold projectLocal
  rw [if_neg hd, if_neg hw]

/-- The correction vector `dp = -correction * grad` computed by
`projectLocal` before it is distributed over the two endpoints. -/
def localDP (st : SimState) (c : LocalConstraint) : Vec3 :=
  smul (-((len ((st.P.getD c.i default).p - (st.P.getD c.j default).p)
        - c.restLen) * (1 - 0)))
    (vdiv ((st.P.getD c.i default).p - (st.P.getD c.j default).p)
      (len ((st.P.getD c.i default).p - (st.P.getD c.j default).p)))

/-- The particle at `c.i` after a non-degenerate `projectLocal`. -/
theorem projectLocal_getD_i (st : SimState) (c : LocalConstraint)
    (hd : ¬ len ((st.P.getD c.i default).p - (st.P.getD c.j default).p)
        < 1 / 1000000)
    (hw : ¬ (st.P.getD c.i default).w + (st.P.getD c.j default).w
        < 1 / 1000000)
    (hij : c.i ≠ c.j) (hi : c.i < st.P.length) :
    (projectLocal st c).P.getD c.i default =
      (if (st.P.getD c.i default).pinned = true then st.P.getD c.i default
       else { st.P.getD c.i default with
              p := (st.P.getD c.i default).p +
                smul ((st.P.getD c.i default).w /
                  ((st.P.getD c.i default).w + (st.P.getD c.j default).w))
                  (localDP st c) }) := by
  by_cases h1 : (st.P.getD c.i default).pinned = true <;>
    by_cases h2 : (st.P.getD c.j default).pinned = true
  · have hPP : (projectLocal st c).P = st.P := by
      rw [projectLocal_eq st c hd hw]
      simp only []
      rw [if_pos h2, if_pos h1]
    rw [hPP, if_pos h1]
  · have hPP : (projectLocal st c).P =
        st.P.set c.j
          ({ st.P.getD c.j default with
             p := (st.P.getD c.j default).p -
               smul ((st.P.getD c.j default).w /
                 ((st.P.getD c.i default).w + (st.P.getD c.j default).w))
                 (localDP st c) }) := by
      rw [projectLocal_eq st c hd hw]
      simp only []
      rw [if_neg h2, if_pos h1]
      rfl
    rw [hPP, getD_set_ne _ _ _ _ hij.symm, if_pos h1]
  · have hPP : (projectLocal st c).P =
        st.P.set c.i
          ({ st.P.getD c.i default with
             p := (st.P.getD c.i default).p +
               smul ((st.P.getD c.i default).w /
                 ((st.P.getD c.i default).w + (st.P.getD c.j default).w))
                 (localDP st c) }) := by
      rw [projectLocal_eq st c hd hw]
      simp only []
      rw [if_pos h2, if_neg h1]
      rfl
    rw [hPP, getD_set_self _ _ _ hi, if_neg h1]
  · have hPP : (projectLocal st c).P =
        (st.P.set c.i
          ({ st.P.getD c.i default with
             p := (st.P.getD c.i default).p +
               smul ((st.P.getD c.i default).w /
                 ((st.P.getD c.i default).w + (st.P.getD c.j default).w))
                 (localDP st c) })).set c.j
          ({ (st.P.set c.i
              ({ st.P.getD c.i default with
                 p := (st.P.getD c.i default).p +
                   smul ((st.P.getD c.i default).w /
                     ((st.P.getD c.i default).w + (st.P.getD c.j default).w))
                     (localDP st c) })).getD c.j default with
             p := ((st.P.set c.i
              ({ st.P.getD c.i default with
                 p := (st.P.getD c.i default).p +
                   smul ((st.P.getD c.i default).w /
                     ((st.P.getD c.i default).w + (st.P.getD c.j default).w))
                     (localDP st c) })).getD c.j default).p -
               smul ((st.P.getD c.j default).w /
                 ((st.P.getD c.i default).w + (st.P.getD c.j default).w))
                 (localDP st c) }) := by
      rw [projectLocal_eq st c hd hw]
      simp only []
      rw [if_neg h2, if_neg h1]
      rfl
    rw [hPP, getD_set_ne _ _ _ _ hij.symm, getD_set_self _ _ _ hi, if_neg h1]

/-- The particle at `c.j` after a non-degenerate `projectLocal`. -/
theorem projectLocal_getD_j (st : SimState) (c : LocalConstraint)
    (hd : ¬ len ((st.P.getD c.i default).p - (st.P.getD c.j default).p)
        < 1 / 1000000)
    (hw : ¬ (st.P.getD c.i default).w + (st.P.getD c.j default).w
        < 1 / 1000000)
    (hij : c.i ≠ c.j) (hj : c.j < st.P.length) :
    (projectLocal st c).P.getD c.j default =
      (if (st.P.getD c.j default).pinned = true then st.P.getD c.j default
       else { st.P.getD c.j default with
              p := (st.P.getD c.j default).p -
                smul ((st.P.getD c.j default).w /
                  ((st.P.getD c.i default).w + (st.P.getD c.j default).w))
                  (localDP st c) }) := by
  by_cases h1 : (st.P.getD c.i default).pinned = true <;>
    by_cases h2 : (st.P.getD c.j default).pinned = true
  · have hPP : (projectLocal st c).P = st.P := by
      rw [projectLocal_eq st c hd hw]
      simp only []
      rw [if_pos h2, if_pos h1]
    rw [hPP, if_pos h2]
  · have hPP : (projectLocal st c).P =
        st.P.set c.j
          ({ st.P.getD c.j default with
             p := (st.P.getD c.j default).p -
               smul ((st.P.getD c.j default).w /
                 ((st.P.getD c.i default).w + (st.P.getD c.j default).w))
                 (localDP st c) }) := by
      rw [projectLocal_eq st c hd hw]
      simp only []
      rw [if_neg h2, if_pos h1]
      rfl
    rw [hPP, getD_set_self _ _ _ hj, if_neg h2]
  · have hPP : (projectLocal st c).P =
        st.P.set c.i
          ({ st.P.getD c.i default with
             p := (st.P.getD c.i default).p +
               smul ((st.P.getD c.i default).w /
                 ((st.P.getD c.i default).w + (st.P.getD c.j default).w))
                 (localDP st c) }) := by
      rw [projectLocal_eq st c hd hw]
      simp only []
      rw [if_pos h2, if_neg h1]
      rfl
    rw [hPP, getD_set_ne _ _ _ _ hij, if_pos h2]
  · have hq2 : ∀ q : Particle,
        (st.P.set c.i q).getD c.j default = st.P.getD c.j default :=
      fun q => getD_set_ne _ _ _ _ hij
    have hPP : (projectLocal st c).P =
        (st.P.set c.i
          ({ st.P.getD c.i default with
             p := (st.P.getD c.i default).p +
               smul ((st.P.getD c.i default).w /
                 ((st.P.getD c.i default).w + (st.P.getD c.j default).w))
                 (localDP st c) })).set c.j
          ({ st.P.getD c.j default with
             p := (st.P.getD c.j default).p -
               smul ((st.P.getD c.j default).w /
                 ((st.P.getD c.i default).w + (st.P.getD c.j default).w))
                 (localDP st c) }) := by
      rw [projectLocal_eq st c hd hw]
      simp only []
      rw [if_neg h2, if_neg h1, hq2]
      rfl
    have hjlen : c.j < (st.P.set c.i
        ({ st.P.getD c.i default with
           p := (st.P.getD c.i default).p +
             smul ((st.P.getD c.i default).w /
               ((st.P.getD c.i default).w + (st.P.getD c.j default).w))
               (localDP st c) })).length := by
      rw [List.length_set]; exact hj
    rw [hPP, getD_set_self _ _ _ hjlen, if_neg h2]

/-- First degenerate guard of `projectLocal`: tiny distance. -/
theorem projectLocal_of_dist_lt (st : SimState) (c : LocalConstraint)
    (h : len ((st.P.getD c.i default).p - (st.P.getD c.j default).p)
      < 1 / 1000000) : projectLocal st c = st := by
  unfold projectLocal
  rw [if_pos h]

/-- Second degenerate guard of `projectLocal`: tiny combined inverse mass. -/
theorem projectLocal_of_wSum_lt (st : SimState) (c : LocalConstraint)
    (h : (st.P.getD c.i default).w + (st.P.getD c.j default).w
      < 1 / 1000000) : projectLocal st c = st := by
  unfold projectLocal
  by_cases h0 : len ((st.P.getD c.i default).p - (st.P.getD c.j default).p)
      < 1 / 1000000
  · rw [if_pos h0]
  · rw [if_neg h0, if_pos h]

/-- Rewriting only the position of the entry at `n` preserves the `pinned`
flag of every entry. -/
theorem pinned_after_set (l : List Particle) (n : ℕ) (u : Vec3) (j : ℕ) :
    ((l.set n ({ l.getD n default with p := u })).getD j default).pinned =
      (l.getD j default).pinned := by
  by_cases e : n = j
  · subst e
    by_cases hb : n < l.length
    · rw [getD_set_self _ _ _ hb]
    · rw [List.set_eq_of_length_le (le_of_not_lt hb)]
  · rw [getD_set_ne _ _ _ _ e]

/-- Shape: `projectLocal` only replaces the particle store, keeping its length. -/
theorem projectLocal_shape (st : SimState) (c : LocalConstraint) :
    ∃ P', projectLocal st c = { st with P := P' } ∧
      P'.length = st.P.length := by
  by_cases hd : len ((st.P.getD c.i default).p - (st.P.getD c.j default).p)
      < 1 / 1000000
  · exact ⟨st.P, projectLocal_of_dist_lt st c hd, rfl⟩
  · by_cases hw : (st.P.getD c.i default).w + (st.P.getD c.j default).w
        < 1 / 1000000
    · exact ⟨st.P, projectLocal_of_wSum_lt st c hw, rfl⟩
    · refine ⟨_, projectLocal_eq st c hd hw, ?_⟩
      by_cases h1 : (st.P.getD c.i default).pinned = true <;>
        by_cases h2 : (st.P.getD c.j default).pinned = true <;>
        simp only [h1, h2, eq_self_iff_true, Bool.false_eq_true, if_true,
          if_false, List.length_set]

/-- Shape: `projectLRA` only replaces the particle store, keeping its length. -/
theorem projectLRA_shape (slack : ℝ) (st : SimState) (c : LRAConstraint) :
    ∃ P', projectLRA slack st c = { st with P := P' } ∧
      P'.length = st.P.length := by
  rcases projectLRA_cases slack st c with h | ⟨u, h⟩
  · exact ⟨st.P, h, rfl⟩
  · exact ⟨_, h, List.length_set ..⟩

/-- A fold of store-only updates is a store-only update. -/
theorem foldl_shape {α : Type _} (f : SimState → α → SimState)
    (hf : ∀ st a, ∃ P', f st a = { st with P := P' } ∧
      P'.length = st.P.length) :
    ∀ (l : List α) (st : SimState),
      ∃ P', l.foldl f st = { st with P := P' } ∧ P'.length = st.P.length := by
  intro l
  induction l with
  | nil => exact fun st => ⟨st.P, rfl, rfl⟩
  | cons a l ih =>
    intro st
    obtain ⟨P1, h1, hl1⟩ := hf st a
    obtain ⟨P2, h2, hl2⟩ := ih ({ st with P := P1 })
    exact ⟨P2, by rw [List.foldl_cons, h1, h2], by rw [hl2]; exact hl1⟩

/-- Shape: `onePass` only replaces the particle store, keeping its length. -/
theorem onePass_shape (useLRA : Bool) (slack : ℝ) (st : SimState) :
    ∃ P', onePass useLRA slack st = { st with P := P' } ∧
      P'.length = st.P.length := by
  obtain ⟨P1, h1, hl1⟩ := foldl_shape projectLocal
    (fun s a => projectLocal_shape s a) st.localConstraints st
  cases useLRA with
  | false => exact ⟨P1, h1, hl1⟩
  | true =>
    obtain ⟨P2, h2, hl2⟩ := foldl_shape (projectLRA slack)
      (fun s a => projectLRA_shape slack s a)
      ({ st with P := P1 } : SimState).lraConstraints ({ st with P := P1 })
    refine ⟨P2, ?_, by rw [hl2]; exact hl1⟩
    show (st.localConstraints.foldl projectLocal st).lraConstraints.foldl
      (projectLRA slack) (st.localConstraints.foldl projectLocal st) = _
    rw [h1, h2]

/-- Shape: `doIterations` only replaces the particle store, keeping its length. -/
theorem doIterations_shape (useLRA : Bool) (slack : ℝ) (n : ℕ)
    (st : SimState) :
    ∃ P', doIterations useLRA slack n st = { st with P := P' } ∧
      P'.length = st.P.length := by
  induction n generalizing st with
  | zero => exact ⟨st.P, rfl, rfl⟩
  | succ n ih =>
    obtain ⟨P1, h1, hl1⟩ := onePass_shape useLRA slack st
    obtain ⟨P2, h2, hl2⟩ := ih ({ st with P := P1 })
    refine ⟨P2, ?_, by rw [hl2]; exact hl1⟩
    show doIterations useLRA slack n (onePass useLRA slack st) = _
    rw [h1, h2]

/-- Shape: `simulate` only replaces the particle store, keeping its length. -/
theorem simulate_shape (st : SimState) (n : ℕ) (u : Bool) (s : ℝ) :
    ∃ P', simulate st n u s = { st with P := P' } ∧
      P'.length = st.P.length := by
  obtain ⟨P1, h1, hl1⟩ :=
    doIterations_shape u s n ({ st with P := st.P.map predictParticle })
  refine ⟨P1.map reconcileParticle, ?_, ?_⟩
  · show { doIterations u s n { st with P := st.P.map predictParticle } with
      P := (doIterations u s n
        { st with P := st.P.map predictParticle }).P.map reconcileParticle }
      = _
    rw [h1]
  · rw [List.length_map, hl1, List.length_map]

/-- Unrolling: `doIterations` is iteration of `onePass`. -/
theorem doIterations_eq_iterate (u : Bool) (s : ℝ) (n : ℕ) (st : SimState) :
    doIterations u s n st = (onePass u s)^[n] st := by
  induction n generalizing st with
  | zero => rfl
  | succ n ih =>
    show doIterations u s n (onePass u s st) = _
    rw [ih, Function.iterate_succ_apply]

theorem reconcileParticle_p (q : Particle) : (reconcileParticle q).p = q.p := by
  unfold reconcileParticle
  split <;> rfl

theorem reconcileParticle_pinned (q : Particle) :
    (reconcileParticle q).pinned = q.pinned := by
  unfold reconcileParticle
  split <;> rfl

theorem predictParticle_pinned (q : Particle) :
    (predictParticle q).pinned = q.pinned := by
  unfold predictParticle
  split <;> rfl

theorem predictParticle_of_pinned (q : Particle) (h : q.pinned = true) :
    predictParticle q = q := by
  unfold predictParticle
  rw [if_pos h]

theorem reconcileParticle_of_pinned (q : Particle) (h : q.pinned = true) :
    reconcileParticle q = q := by
  unfold reconcileParticle
  rw [if_pos h]

/-- Reading a mapped store through `getD`, the velocity-reconciliation map
leaves every position unchanged. -/
theorem map_reconcile_getD_p (l : List Particle) (j : ℕ) :
    ((l.map reconcileParticle).getD j default).p = (l.getD j default).p := by
  rw [List.getD_eq_getElem?_getD, List.getD_eq_getElem?_getD,
    List.getElem?_map]
  cases l[j]? <;> simp [reconcileParticle_p]

theorem len_sub_self (a : Vec3) : len (a - a) = 0 := by
  have h : a - a = (⟨0, 0, 0⟩ : Vec3) :=
    Vec3.eq_of_comps _ _ (by show a.x - a.x = 0; ring)
      (by show a.y - a.y = 0; ring) (by show a.z - a.z = 0; ring)
  rw [h]
  show Real.sqrt (0 * 0 + 0 * 0 + 0 * 0) = 0
  rw [show (0 : ℝ) * 0 + 0 * 0 + 0 * 0 = 0 by norm_num]
  exact Real.sqrt_zero

/-- After one `projectLRA`, the projected constraint's particle sits within
`limit + 1e-6` of its anchor (the `1e-6` covers the degenerate guard). -/
theorem projectLRA_clamp (slack : ℝ) (st : SimState) (c : LRAConstraint)
    (hb : c.particleIdx < st.P.length) (hlim : 0 ≤ c.maxDist * slack) :
    len (((projectLRA slack st c).P.getD c.particleIdx default).p -
        ((projectLRA slack st c).P.getD c.attachmentIdx default).p)
      ≤ c.maxDist * slack + 1 / 1000000 := by
  by_cases h1 : c.maxDist * slack <
      len ((st.P.getD c.particleIdx default).p -
        (st.P.getD c.attachmentIdx default).p)
  · by_cases h2 : len ((st.P.getD c.particleIdx default).p -
        (st.P.getD c.attachmentIdx default).p) < 1 / 1000000
    · have he : projectLRA slack st c = st := by
        unfold projectLRA
        rw [if_pos h1, if_pos h2]
      rw [he]
      linarith
    · have hne : c.particleIdx ≠ c.attachmentIdx := by
        intro e
        rw [e, len_sub_self] at h1
        linarith
      rw [projectLRA_dist_of_gt slack st c h1 (not_lt.mp h2) hlim hne hb]
      linarith
  · rw [projectLRA_of_le slack st c (not_lt.mp h1)]
    linarith [not_lt.mp h1]

/-- Folding LRA projections over constraints none of which targets index `j`
leaves the entry at `j` untouched. -/
theorem lraFold_getD_frozen (slack : ℝ) (L : List LRAConstraint) :
    ∀ (st : SimState) (j : ℕ), (∀ c' ∈ L, c'.particleIdx ≠ j) →
      (L.foldl (projectLRA slack) st).P.getD j default =
        st.P.getD j default := by
  induction L with
  | nil => intro st j _; rfl
  | cons a L ih =>
    intro st j h
    rw [List.foldl_cons,
      ih (projectLRA slack st a) j
        (fun c' hc' => h c' (List.mem_cons_of_mem a hc')),
      projectLRA_getD_ne slack st a j
        (Ne.symm (h a (List.mem_cons_self a L)))]

/-- After the whole LRA pass, every constraint of the pass is clamped:
each projection clamps its own particle, later projections move only their
own (distinct) particles, and no projection moves an anchor. -/
theorem lraPass_clamp (slack : ℝ) :
    ∀ (L : List LRAConstraint) (st : SimState),
    (∀ c ∈ L, 0 ≤ c.maxDist * slack) →
    (∀ c ∈ L, c.particleIdx < st.P.length) →
    L.Pairwise (fun a b => a.particleIdx ≠ b.particleIdx) →
    (∀ c ∈ L, ∀ c' ∈ L, c.attachmentIdx ≠ c'.particleIdx) →
    ∀ c ∈ L,
      len (((L.foldl (projectLRA slack) st).P.getD c.particleIdx default).p -
          ((L.foldl (projectLRA slack) st).P.getD c.attachmentIdx default).p)
        ≤ c.maxDist * slack + 1 / 1000000 := by
  intro L
  induction L with
  | nil => intro st _ _ _ _ c hc; cases hc
  | cons a L ih =>
    intro st hlim hb hpw hanchor c hc
    rw [List.foldl_cons]
    obtain ⟨hhead, htail⟩ := List.pairwise_cons.mp hpw
    rcases List.mem_cons.mp hc with rfl | hc'
    · have hf1 : (L.foldl (projectLRA slack)
          (projectLRA slack st c)).P.getD c.particleIdx default =
          (projectLRA slack st c).P.getD c.particleIdx default :=
        lraFold_getD_frozen slack L _ _
          (fun c' hc' => Ne.symm (hhead c' hc'))
      have hf2 : (L.foldl (projectLRA slack)
          (projectLRA slack st c)).P.getD c.attachmentIdx default =
          (projectLRA slack st c).P.getD c.attachmentIdx default :=
        lraFold_getD_frozen slack L _ _
          (fun c' hc' => Ne.symm (hanchor c (List.mem_cons_self c L) c'
            (List.mem_cons_of_mem c hc')))
      rw [hf1, hf2]
      exact projectLRA_clamp slack st c (hb c (List.mem_cons_self c L))
        (hlim c (List.mem_cons_self c L))
    · refine ih (projectLRA slack st a)
        (fun c2 h2 => hlim c2 (List.mem_cons_of_mem a h2))
        (fun c2 h2 => ?_) htail
        (fun c2 h2 c3 h3 => hanchor c2 (List.mem_cons_of_mem a h2) c3
          (List.mem_cons_of_mem a h3)) c hc'
      rw [projectLRA_length]
      exact hb c2 (List.mem_cons_of_mem a h2)

/-- Overriding the position twice is one override. -/
theorem override_p (q : Particle) (a b : Vec3) :
    ({ ({ q with p := a } : Particle) with p := b } : Particle)
      = { q with p := b } := rfl

/-- How one position-only `set` at `n` reads back at `j`: untouched, or
(`j = n`, in range) the same entry with only `p` replaced. -/
theorem entry_after_set (l : List Particle) (n : ℕ) (u : Vec3) (j : ℕ) :
    (l.set n ({ l.getD n default with p := u })).getD j default =
      l.getD j default ∨
    ((l.set n ({ l.getD n default with p := u })).getD j default =
      { l.getD j default with p := u } ∧ j = n) := by
  by_cases e : n = j
  · subst e
    by_cases hb : n < l.length
    · exact Or.inr ⟨getD_set_self _ _ _ hb, rfl⟩
    · exact Or.inl (by rw [List.set_eq_of_length_le (le_of_not_lt hb)])
  · exact Or.inl (getD_set_ne _ _ _ _ e)

/-- The new position `projectLocal` computes for endpoint `i` when it is
free. -/
def newPi (st : SimState) (c : LocalConstraint) : Vec3 :=
  (st.P.getD c.i default).p +
    smul ((st.P.getD c.i default).w /
      ((st.P.getD c.i default).w + (st.P.getD c.j default).w))
      (localDP st c)

/-- The new position `projectLocal` computes for endpoint `j` when it is
free, re-reading the store after the first write. -/
def newPj (st : SimState) (c : LocalConstraint) : Vec3 :=
  ((st.P.set c.i ({ st.P.getD c.i default with
      p := newPi st c })).getD c.j default).p -
    smul ((st.P.getD c.j default).w /
      ((st.P.getD c.i default).w + (st.P.getD c.j default).w))
      (localDP st c)

/-- Master description of what `projectLocal` does to the entry at `j`:
either nothing, or (entry free, `j` an endpoint) only its position moves. -/
theorem projectLocal_getD_entry (st : SimState) (c : LocalConstraint)
    (j : ℕ) :
    (projectLocal st c).P.getD j default = st.P.getD j default ∨
    ((st.P.getD j default).pinned = false ∧ (j = c.i ∨ j = c.j) ∧
      ∃ u, (projectLocal st c).P.getD j default =
        { st.P.getD j default with p := u }) := by
  by_cases hd : len ((st.P.getD c.i default).p - (st.P.getD c.j default).p)
      < 1 / 1000000
  · left; rw [projectLocal_of_dist_lt st c hd]
  by_cases hw' : (st.P.getD c.i default).w + (st.P.getD c.j default).w
      < 1 / 1000000
  · left; rw [projectLocal_of_wSum_lt st c hw']
  have hPP := projectLocal_eq st c hd hw'
  by_cases h1 : (st.P.getD c.i default).pinned = true <;>
    by_cases h2 : (st.P.getD c.j default).pinned = true
  · left
    have he : (projectLocal st c).P = st.P := by
      rw [hPP]
      simp only []
      rw [if_pos h2, if_pos h1]
    rw [he]
  · have hstep : ∃ u, (projectLocal st c).P =
        st.P.set c.j ({ st.P.getD c.j default with p := u }) := by
      refine ⟨(st.P.getD c.j default).p -
        smul ((st.P.getD c.j default).w /
          ((st.P.getD c.i default).w + (st.P.getD c.j default).w))
          (localDP st c), ?_⟩
      rw [hPP]
      simp only []
      rw [if_neg h2, if_pos h1]
      rfl
    obtain ⟨u, hstep⟩ := hstep
    rcases entry_after_set st.P c.j u j with he | ⟨he, rfl⟩
    · left; rw [hstep]; exact he
    · right
      exact ⟨by simpa using h2, Or.inr rfl, u, by rw [hstep]; exact he⟩
  · have hstep : ∃ u, (projectLocal st c).P =
        st.P.set c.i ({ st.P.getD c.i default with p := u }) := by
      refine ⟨(st.P.getD c.i default).p +
        smul ((st.P.getD c.i default).w /
          ((st.P.getD c.i default).w + (st.P.getD c.j default).w))
          (localDP st c), ?_⟩
      rw [hPP]
      simp only []
      rw [if_pos h2, if_neg h1]
      rfl
    obtain ⟨u, hstep⟩ := hstep
    rcases entry_after_set st.P c.i u j with he | ⟨he, rfl⟩
    · left; rw [hstep]; exact he
    · right
      exact ⟨by simpa using h1, Or.inl rfl, u, by rw [hstep]; exact he⟩
  · have hstep : (projectLocal st c).P =
        (st.P.set c.i ({ st.P.getD c.i default with
            p := newPi st c })).set c.j
          ({ (st.P.set c.i ({ st.P.getD c.i default with
              p := newPi st c })).getD c.j default with
             p := newPj st c }) := by
      rw [hPP]
      simp only []
      rw [if_neg h2, if_neg h1]
      rfl
    rcases entry_after_set (st.P.set c.i
        ({ st.P.getD c.i default with p := newPi st c })) c.j
        (newPj st c) j with he2 | ⟨he2, rfl⟩
    · rcases entry_after_set st.P c.i (newPi st c) j with he1 | ⟨he1, rfl⟩
      · left
        rw [hstep, he2]
        exact he1
      · right
        exact ⟨by simpa using h1, Or.inl rfl, newPi st c,
          by rw [hstep, he2]; exact he1⟩
    · rcases entry_after_set st.P c.i (newPi st c) c.j with he1 | ⟨he1, hji⟩
      · right
        refine ⟨by simpa using h2, Or.inr rfl, newPj st c, ?_⟩
        rw [hstep, he2, he1]
      · right
        refine ⟨by simpa using h2, Or.inr rfl, newPj st c, ?_⟩
        rw [hstep, he2, he1, override_p]

/-- Flags: `projectLocal` preserves every entry's `pinned` flag. -/
theorem projectLocal_entry_flag (st : SimState) (c : LocalConstraint)
    (j : ℕ) :
    ((projectLocal st c).P.getD j default).pinned =
      (st.P.getD j default).pinned := by
  rcases projectLocal_getD_entry st c j with h | ⟨_, _, u, h⟩ <;> rw [h]

/-- Pinned entries survive `projectLocal` untouched. -/
theorem projectLocal_getD_pinned (st : SimState) (c : LocalConstraint)
    (j : ℕ) (hp : (st.P.getD j default).pinned = true) :
    (projectLocal st c).P.getD j default = st.P.getD j default := by
  rcases projectLocal_getD_entry st c j with h | ⟨hf, _, _, _⟩
  · exact h
  · rw [hf] at hp
    exact (Bool.false_ne_true hp).elim

/-- Master description of what `projectLRA` does to the entry at `j`. -/
theorem projectLRA_getD_entry (slack : ℝ) (st : SimState)
    (c : LRAConstraint) (j : ℕ) :
    (projectLRA slack st c).P.getD j default = st.P.getD j default ∨
    (j = c.particleIdx ∧ ∃ u, (projectLRA slack st c).P.getD j default =
      { st.P.getD j default with p := u }) := by
  rcases projectLRA_cases slack st c with h | ⟨u, h⟩
  · left; rw [h]
  · rcases entry_after_set st.P c.particleIdx u j with he | ⟨he, rfl⟩
    · left; rw [h]; exact he
    · right; exact ⟨rfl, u, by rw [h]; exact he⟩

/-- Flags: `projectLRA` preserves every entry's `pinned` flag. -/
theorem projectLRA_entry_flag (slack : ℝ) (st : SimState)
    (c : LRAConstraint) (j : ℕ) :
    ((projectLRA slack st c).P.getD j default).pinned =
      (st.P.getD j default).pinned := by
  rcases projectLRA_getD_entry slack st c j with h | ⟨_, u, h⟩ <;> rw [h]

/-- The LRA-target wellformedness invariant: no LRA constraint targets a
pinned particle (true of every built scene, since the builder skips pinned
particles). -/
def freeTargets (st : SimState) : Prop :=
  ∀ c ∈ st.lraConstraints, (st.P.getD c.particleIdx default).pinned = false

theorem localFold_getD_pinned (L : List LocalConstraint) :
    ∀ (st : SimState) (j : ℕ), (st.P.getD j default).pinned = true →
      (L.foldl projectLocal st).P.getD j default = st.P.getD j default := by
  induction L with
  | nil => intro st j _; rfl
  | cons c L ih =>
    intro st j hp
    have h1 := projectLocal_getD_pinned st c j hp
    have hp' : ((projectLocal st c).P.getD j default).pinned = true := by
      rw [h1]; exact hp
    rw [List.foldl_cons, ih (projectLocal st c) j hp', h1]

theorem localFold_flag (L : List LocalConstraint) :
    ∀ (st : SimState) (k : ℕ),
      ((L.foldl projectLocal st).P.getD k default).pinned =
        (st.P.getD k default).pinned := by
  induction L with
  | nil => intro st k; rfl
  | cons c L ih =>
    intro st k
    rw [List.foldl_cons, ih (projectLocal st c) k,
      projectLocal_entry_flag st c k]

theorem lraFold_getD_pinned (slack : ℝ) (L : List LRAConstraint) :
    ∀ (st : SimState) (j : ℕ), (st.P.getD j default).pinned = true →
      (∀ c ∈ L, (st.P.getD c.particleIdx default).pinned = false) →
      (L.foldl (projectLRA slack) st).P.getD j default =
        st.P.getD j default := by
  induction L with
  | nil => intro st j _ _; rfl
  | cons a L ih =>
    intro st j hp hfree
    have h1 : (projectLRA slack st a).P.getD j default =
        st.P.getD j default := by
      rcases projectLRA_getD_entry slack st a j with h | ⟨rfl, _, _⟩
      · exact h
      · rw [hfree a (List.mem_cons_self a L)] at hp
        exact (Bool.false_ne_true hp).elim
    have hp' : ((projectLRA slack st a).P.getD j default).pinned = true := by
      rw [h1]; exact hp
    have hfree' : ∀ c ∈ L,
        ((projectLRA slack st a).P.getD c.particleIdx default).pinned
          = false := by
      intro c hc
      rw [projectLRA_entry_flag]
      exact hfree c (List.mem_cons_of_mem a hc)
    rw [List.foldl_cons, ih (projectLRA slack st a) j hp' hfree', h1]

theorem lraFold_flag (slack : ℝ) (L : List LRAConstraint) :
    ∀ (st : SimState) (k : ℕ),
      ((L.foldl (projectLRA slack) st).P.getD k default).pinned =
        (st.P.getD k default).pinned := by
  induction L with
  | nil => intro st k; rfl
  | cons a L ih =>
    intro st k
    rw [List.foldl_cons, ih (projectLRA slack st a) k,
      projectLRA_entry_flag slack st a k]

theorem map_predict_getD_pinned (l : List Particle) (j : ℕ)
    (hp : (l.getD j default).pinned = true) :
    (l.map predictParticle).getD j default = l.getD j default := by
  cases h : l[j]? with
  | none => simp [List.getD_eq_getElem?_getD, List.getElem?_map, h]
  | some q =>
    have hq : l.getD j default = q := by
      simp [List.getD_eq_getElem?_getD, h]
    rw [hq] at hp
    simp [List.getD_eq_getElem?_getD, List.getElem?_map, h, hq,
      predictParticle_of_pinned q hp]

theorem map_predict_flag (l : List Particle) (k : ℕ) :
    ((l.map predictParticle).getD k default).pinned =
      (l.getD k default).pinned := by
  cases h : l[k]? with
  | none => simp [List.getD_eq_getElem?_getD, List.getElem?_map, h]
  | some q =>
    simp [List.getD_eq_getElem?_getD, List.getElem?_map, h,
      predictParticle_pinned]

theorem map_reconcile_getD_pinned (l : List Particle) (j : ℕ)
    (hp : (l.getD j default).pinned = true) :
    (l.map reconcileParticle).getD j default = l.getD j default := by
  cases h : l[j]? with
  | none => simp [List.getD_eq_getElem?_getD, List.getElem?_map, h]
  | some q =>
    have hq : l.getD j default = q := by
      simp [List.getD_eq_getElem?_getD, h]
    rw [hq] at hp
    simp [List.getD_eq_getElem?_getD, List.getElem?_map, h, hq,
      reconcileParticle_of_pinned q hp]

theorem map_reconcile_flag (l : List Particle) (k : ℕ) :
    ((l.map reconcileParticle).getD k default).pinned =
      (l.getD k default).pinned := by
  cases h : l[k]? with
  | none => simp [List.getD_eq_getElem?_getD, List.getElem?_map, h]
  | some q =>
    simp [List.getD_eq_getElem?_getD, List.getElem?_map, h,
      reconcileParticle_pinned]

/-- The local pass does not change the LRA constraint list. -/
theorem localFold_lra_eq (L : List LocalConstraint) (st : SimState) :
    (L.foldl projectLocal st).lraConstraints = st.lraConstraints := by
  obtain ⟨P', h, _⟩ := foldl_shape projectLocal
    (fun s a => projectLocal_shape s a) L st
  rw [h]

theorem onePass_getD_pinned (u : Bool) (slack : ℝ) (st : SimState) (j : ℕ)
    (hp : (st.P.getD j default).pinned = true)
    (hfree : ∀ c ∈ st.lraConstraints,
      (st.P.getD c.particleIdx default).pinned = false) :
    (onePass u slack st).P.getD j default = st.P.getD j default := by
  cases u with
  | false =>
    show (st.localConstraints.foldl projectLocal st).P.getD j default = _
    exact localFold_getD_pinned st.localConstraints st j hp
  | true =>
    show ((st.localConstraints.foldl projectLocal
        st).lraConstraints.foldl (projectLRA slack)
        (st.localConstraints.foldl projectLocal st)).P.getD j default = _
    rw [localFold_lra_eq]
    have hp1 : ((st.localConstraints.foldl projectLocal
        st).P.getD j default).pinned = true := by
      rw [localFold_flag]; exact hp
    have hfree1 : ∀ c ∈ st.lraConstraints,
        ((st.localConstraints.foldl projectLocal
          st).P.getD c.particleIdx default).pinned = false := by
      intro c hc
      rw [localFold_flag]
      exact hfree c hc
    rw [lraFold_getD_pinned slack st.lraConstraints _ j hp1 hfree1,
      localFold_getD_pinned st.localConstraints st j hp]

theorem onePass_flag (u : Bool) (slack : ℝ) (st : SimState) (k : ℕ) :
    ((onePass u slack st).P.getD k default).pinned =
      (st.P.getD k default).pinned := by
  cases u with
  | false =>
    show (((st.localConstraints.foldl projectLocal
      st).P.getD k default)).pinned = _
    exact localFold_flag st.localConstraints st k
  | true =>
    show (((st.localConstraints.foldl projectLocal
        st).lraConstraints.foldl (projectLRA slack)
        (st.localConstraints.foldl projectLocal
          st)).P.getD k default).pinned = _
    rw [lraFold_flag, localFold_flag]

/-- Frame: `onePass` preserves the LRA constraint list. -/
theorem onePass_lra_eq (u : Bool) (slack : ℝ) (st : SimState) :
    (onePass u slack st).lraConstraints = st.lraConstraints := by
  obtain ⟨P', h, _⟩ := onePass_shape u slack st
  rw [h]

theorem doIterations_getD_pinned (u : Bool) (slack : ℝ) (n : ℕ) :
    ∀ (st : SimState) (j : ℕ), (st.P.getD j default).pinned = true →
      (∀ c ∈ st.lraConstraints,
        (st.P.getD c.particleIdx default).pinned = false) →
      (doIterations u slack n st).P.getD j default =
        st.P.getD j default := by
  induction n with
  | zero => intro st j _ _; rfl
  | succ n ih =>
    intro st j hp hfree
    show (doIterations u slack n (onePass u slack st)).P.getD j default = _
    have hp' : ((onePass u slack st).P.getD j default).pinned = true := by
      rw [onePass_flag]; exact hp
    have hfree' : ∀ c ∈ (onePass u slack st).lraConstraints,
        ((onePass u slack st).P.getD c.particleIdx default).pinned
          = false := by
      intro c hc
      rw [onePass_lra_eq] at hc
      rw [onePass_flag]
      exact hfree c hc
    rw [ih (onePass u slack st) j hp' hfree',
      onePass_getD_pinned u slack st j hp hfree]

theorem doIterations_flag (u : Bool) (slack : ℝ) (n : ℕ) :
    ∀ (st : SimState) (k : ℕ),
      ((doIterations u slack n st).P.getD k default).pinned =
        (st.P.getD k default).pinned := by
  induction n with
  | zero => intro st k; rfl
  | succ n ih =>
    intro st k
    show ((doIterations u slack n
      (onePass u slack st)).P.getD k default).pinned = _
    rw [ih (onePass u slack st) k, onePass_flag]

/-- A full tick never writes a pinned particle's entry. -/
theorem simulate_getD_pinned (st : SimState) (n : ℕ) (u : Bool) (s : ℝ)
    (j : ℕ) (hp : (st.P.getD j default).pinned = true)
    (hfree : freeTargets st) :
    (simulate st n u s).P.getD j default = st.P.getD j default := by
  have hpre : ({ st with P := st.P.map predictParticle } :
      SimState).P.getD j default = st.P.getD j default :=
    map_predict_getD_pinned st.P j hp
  have hp1 : (({ st with P := st.P.map predictParticle } :
      SimState).P.getD j default).pinned = true := by
    rw [hpre]; exact hp
  have hfree1 : ∀ c ∈ ({ st with P := st.P.map predictParticle } :
      SimState).lraConstraints,
      (({ st with P := st.P.map predictParticle } :
        SimState).P.getD c.particleIdx default).pinned = false := by
    intro c hc
    show ((st.P.map predictParticle).getD c.particleIdx default).pinned
      = false
    rw [map_predict_flag]
    exact hfree c hc
  have hiter := doIterations_getD_pinned u s n
    ({ st with P := st.P.map predictParticle }) j hp1 hfree1
  have hp2 : ((doIterations u s n
      ({ st with P := st.P.map predictParticle })).P.getD
        j default).pinned = true := by
    rw [doIterations_flag, map_predict_flag]
    exact hp
  show ((doIterations u s n
      ({ st with P := st.P.map predictParticle })).P.map
        reconcileParticle).getD j default = _
  rw [map_reconcile_getD_pinned _ j hp2, hiter, hpre]

theorem simulate_flag (st : SimState) (n : ℕ) (u : Bool) (s : ℝ) (k : ℕ) :
    ((simulate st n u s).P.getD k default).pinned =
      (st.P.getD k default).pinned := by
  show (((doIterations u s n
      ({ st with P := st.P.map predictParticle })).P.map
        reconcileParticle).getD k default).pinned = _
  rw [map_reconcile_flag, doIterations_flag, map_predict_flag]

/-- Frame: `simulate` preserves the LRA constraint list. -/
theorem simulate_lra_eq (st : SimState) (n : ℕ) (u : Bool) (s : ℝ) :
    (simulate st n u s).lraConstraints = st.lraConstraints := by
  obtain ⟨P', h, _⟩ := simulate_shape st n u s
  rw [h]

/-- The invariant `freeTargets` survives a tick. -/
theorem simulate_freeTargets (st : SimState) (n : ℕ) (u : Bool) (s : ℝ)
    (hfree : freeTargets st) : freeTargets (simulate st n u s) := by
  intro c hc
  rw [simulate_lra_eq] at hc
  rw [simulate_flag]
  exact hfree c hc

/-- Over any tick sequence, pinned entries never change. -/
theorem runTicks_getD_pinned (ticks : List Tick) :
    ∀ (st : SimState) (j : ℕ), (st.P.getD j default).pinned = true →
      freeTargets st →
      (runTicks st ticks).P.getD j default = st.P.getD j default := by
  induction ticks with
  | nil => intro st j _ _; rfl
  | cons t ts ih =>
    intro st j hp hfree
    show (runTicks (simulate st t.1 t.2.1 t.2.2) ts).P.getD j default = _
    have h1 := simulate_getD_pinned st t.1 t.2.1 t.2.2 j hp hfree
    have hp' : ((simulate st t.1 t.2.1 t.2.2).P.getD j default).pinned
        = true := by
      rw [simulate_flag]; exact hp
    rw [ih (simulate st t.1 t.2.1 t.2.2) j hp'
      (simulate_freeTargets st t.1 t.2.1 t.2.2 hfree), h1]

/-- What a successful `lraFor` tells us: the particle is `i`, it is free,
and the stored pair is exactly the scan's result. -/
theorem lraFor_spec (Ps : List Particle) (attach : List ℕ) (i : ℕ)
    (c : LRAConstraint) (h : lraFor Ps attach i = some c) :
    c.particleIdx = i ∧ (Ps.getD i default).pinned = false ∧
    findNearest Ps (Ps.getD i default).p attach =
      (some c.attachmentIdx, c.maxDist) := by
  unfold lraFor at h
  by_cases hp : (Ps.getD i default).pinned = true
  · rw [if_pos hp] at h
    cases h
  · rw [if_neg hp] at h
    rcases hm : findNearest Ps (Ps.getD i default).p attach with ⟨ob, m⟩
    rw [hm] at h
    cases ob with
    | none => cases h
    | some b =>
      have he := Option.some.inj h
      subst he
      exact ⟨rfl, by simpa using hp, rfl⟩

/-- The topology builder never targets a pinned particle with an LRA
constraint. -/
theorem buildScene_free_targets (W H : ℕ) (s : ℝ) (pinQ : ℕ → ℕ → Bool) :
    freeTargets (buildScene W H s pinQ) := by
  intro c hc
  obtain ⟨i, hi, hfi⟩ := List.mem_filterMap.mp hc
  obtain ⟨hidx, hpin, _⟩ := lraFor_spec _ _ _ _ hfi
  rw [hidx]
  exact hpin

/-- Any vector whose squared length is under `1e60` has length under the
scan sentinel `1e30`. -/
theorem len_lt_big (v : Vec3) (h : dot v v < 10 ^ 60) : len v < 10 ^ 30 := by
  unfold len
  rw [Real.sqrt_lt' (by positivity)]
  calc dot v v < 10 ^ 60 := h
    _ = (10 ^ 30) ^ 2 := by norm_num

/-- Behaviour of the attachment scan from any accumulator: either no update
happened (every candidate is at least `m` away), or the result is the first
candidate attaining the strict minimum: strictly closer than everything
before it, no farther than everything after it. -/
theorem scan_spec (Ps : List Particle) (pos : Vec3) :
    ∀ (l : List ℕ) (b : Option ℕ) (m : ℝ),
      (l.foldl (scanStep Ps pos) (b, m) = (b, m) ∧
        ∀ x ∈ l, m ≤ scanDist Ps pos x) ∨
      (∃ l₁ a l₂, l = l₁ ++ a :: l₂ ∧
        l.foldl (scanStep Ps pos) (b, m) = (some a, scanDist Ps pos a) ∧
        scanDist Ps pos a < m ∧
        (∀ x ∈ l₁, scanDist Ps pos a < scanDist Ps pos x) ∧
        (∀ x ∈ l₂, scanDist Ps pos a ≤ scanDist Ps pos x)) := by
  intro l
  induction l with
  | nil =>
    intro b m
    exact Or.inl ⟨rfl, fun x hx => absurd hx (List.not_mem_nil x)⟩
  | cons a0 l ih =>
    intro b m
    rw [List.foldl_cons]
    by_cases hlt : scanDist Ps pos a0 < m
    · have hstep : scanStep Ps pos (b, m) a0 =
          (some a0, scanDist Ps pos a0) := by
        unfold scanStep
        rw [if_pos hlt]
      rw [hstep]
      rcases ih (some a0) (scanDist Ps pos a0) with
        ⟨heq, hall⟩ | ⟨l₁, a, l₂, hsplit, heq, hlt2, h₁, h₂⟩
      · exact Or.inr ⟨[], a0, l, rfl, heq, hlt,
          fun x hx => absurd hx (List.not_mem_nil x), hall⟩
      · refine Or.inr ⟨a0 :: l₁, a, l₂, by rw [hsplit, List.cons_append], heq,
          lt_trans hlt2 hlt, ?_, h₂⟩
        intro x hx
        rcases List.mem_cons.mp hx with rfl | hx'
        · exact hlt2
        · exact h₁ x hx'
    · have hstep : scanStep Ps pos (b, m) a0 = (b, m) := by
        unfold scanStep
        rw [if_neg hlt]
      rw [hstep]
      rcases ih b m with
        ⟨heq, hall⟩ | ⟨l₁, a, l₂, hsplit, heq, hlt2, h₁, h₂⟩
      · refine Or.inl ⟨heq, ?_⟩
        intro x hx
        rcases List.mem_cons.mp hx with rfl | hx'
        · exact not_lt.mp hlt
        · exact hall x hx'
      · refine Or.inr ⟨a0 :: l₁, a, l₂, by rw [hsplit, List.cons_append], heq,
          hlt2, ?_, h₂⟩
        intro x hx
        rcases List.mem_cons.mp hx with rfl | hx'
        · exact lt_of_lt_of_le hlt2 (not_lt.mp hlt)
        · exact h₁ x hx'

/-- With a non-empty attachment list whose distances are all under the
`1e30` sentinel, the scan returns the first minimizing attachment and its
distance. -/
theorem findNearest_found (Ps : List Particle) (pos : Vec3) (l : List ℕ)
    (hne : l ≠ []) (hsmall : ∀ x ∈ l, scanDist Ps pos x < 10 ^ 30) :
    ∃ l₁ a l₂, l = l₁ ++ a :: l₂ ∧
      findNearest Ps pos l = (some a, scanDist Ps pos a) ∧
      (∀ x ∈ l₁, scanDist Ps pos a < scanDist Ps pos x) ∧
      (∀ x ∈ l₂, scanDist Ps pos a ≤ scanDist Ps pos x) := by
  rcases scan_spec Ps pos l none (10 ^ 30) with
    ⟨heq, hall⟩ | ⟨l₁, a, l₂, hsplit, heq, hlt2, h₁, h₂⟩
  · cases l with
    | nil => exact absurd rfl hne
    | cons x l =>
      exact absurd (hall x (List.mem_cons_self x l))
        (not_le.mpr (hsmall x (List.mem_cons_self x l)))
  · exact ⟨l₁, a, l₂, hsplit, heq, h₁, h₂⟩

/-- Indexing the row-major grid of particles. -/
theorem grid_getElem :
    ∀ (H : ℕ) (f : ℕ → ℕ → Particle) (W y x : ℕ), x < W → y < H →
      ((List.range H).flatMap fun y =>
        (List.range W).map fun x => f x y)[y * W + x]? = some (f x y) := by
  intro H
  induction H with
  | zero => intro f W y x hx hy; exact absurd hy (Nat.not_lt_zero y)
  | succ H ih =>
    intro f W y x hx hy
    rw [List.range_succ_eq_map, List.flatMap_cons, List.flatMap_map]
    cases y with
    | zero =>
      simp only [Nat.zero_mul, Nat.zero_add]
      rw [List.getElem?_append, if_pos (by simpa using hx),
        List.getElem?_map]
      simp [List.getElem?_range, hx]
    | succ y =>
      have hidx : (y + 1) * W + x = W + (y * W + x) := by ring
      rw [hidx, List.getElem?_append,
        if_neg (by simp only [List.length_map, List.length_range]; omega)]
      simp only [List.length_map, List.length_range,
        Nat.add_sub_cancel_left]
      exact ih (fun x y => f x (y + 1)) W y x hx
        (Nat.lt_of_succ_lt_succ hy)

/-- Reading the built particle store at grid coordinate `(x, y)`. -/
theorem buildScene_getD (W H : ℕ) (s : ℝ) (pinQ : ℕ → ℕ → Bool)
    (x y : ℕ) (hx : x < W) (hy : y < H) :
    (buildScene W H s pinQ).P.getD (idx W x y) default =
      initParticle W H s pinQ x y := by
  show ((List.range H).flatMap fun y =>
    (List.range W).map fun x => initParticle W H s pinQ x y).getD
      (y * W + x) default = _
  rw [List.getD_eq_getElem?_getD,
    grid_getElem H (fun x y => initParticle W H s pinQ x y) W y x hx hy]
  rfl

/-- Members of the attachment-index list and where they come from. -/
theorem attach_mem (W H : ℕ) (s : ℝ) (pinQ : ℕ → ℕ → Bool) (a : ℕ)
    (ha : a ∈ (buildScene W H s pinQ).attachmentIndices) :
    ∃ x y, x < W ∧ y < H ∧ pinQ x y = true ∧ a = idx W x y := by
  obtain ⟨y, hy, hmem⟩ := List.mem_flatMap.mp ha
  obtain ⟨x, hx, hfx⟩ := List.mem_filterMap.mp hmem
  by_cases hp : pinQ x y = true
  · rw [if_pos hp] at hfx
    exact ⟨x, y, List.mem_range.mp hx, List.mem_range.mp hy, hp,
      (Option.some.inj hfx).symm⟩
  · rw [if_neg hp] at hfx
    cases hfx

/-- Every entry of the attachment-index list is a pinned particle. -/
theorem attach_pinned (W H : ℕ) (s : ℝ) (pinQ : ℕ → ℕ → Bool) (a : ℕ)
    (ha : a ∈ (buildScene W H s pinQ).attachmentIndices) :
    ((buildScene W H s pinQ).P.getD a default).pinned = true := by
  obtain ⟨x, y, hx, hy, hp, rfl⟩ := attach_mem W H s pinQ a ha
  rw [buildScene_getD W H s pinQ x y hx hy]
  unfold initParticle
  rw [if_pos hp]

/-- Counting, in a `filterMap` over distinct indices, the constraints built
for particle `i`. -/
theorem countP_filterMap_targets (f : ℕ → Option LRAConstraint)
    (hf : ∀ k c, f k = some c → c.particleIdx = k) :
    ∀ (l : List ℕ), l.Nodup → ∀ i : ℕ,
      (l.filterMap f).countP (fun c => c.particleIdx == i) =
        if i ∈ l ∧ (f i).isSome then 1 else 0 := by
  intro l
  induction l with
  | nil => intro _ i; simp
  | cons k l ih =>
    intro hnd i
    obtain ⟨hk, hnd'⟩ := List.nodup_cons.mp hnd
    rw [List.filterMap_cons]
    cases hfk : f k with
    | none =>
      rw [ih hnd' i]
      by_cases hik : i = k
      · subst hik
        simp [hfk, hk]
      · simp [List.mem_cons, hik]
    | some c =>
      have hck : c.particleIdx = k := hf k c hfk
      rw [List.countP_cons, ih hnd' i]
      by_cases hik : i = k
      · subst hik
        simp [hfk, hk, hck]
      · simp [List.mem_cons, hik, hck, Ne.symm hik]

/-- The scenario pin predicate of C8: only grid coordinate `(0,0)`. -/
def pin00 (x y : ℕ) : Bool := x == 0 && y == 0

theorem scanDist_eq (Ps : List Particle) (pos : Vec3) (a : ℕ) :
    scanDist Ps pos a = Real.sqrt (dot (pos - (Ps.getD a default).p)
      (pos - (Ps.getD a default).p)) := rfl

theorem initParticle_p (W H : ℕ) (s : ℝ) (q : ℕ → ℕ → Bool) (x y : ℕ) :
    (initParticle W H s q x y).p =
      ⟨((x : ℝ) - ((W : ℝ) - 1) * (1 / 2)) * s,
       (((H : ℝ) - 1) - (y : ℝ)) * s, 0⟩ := by
  unfold initParticle
  split <;> rfl

/-- The attachment scan over a single pin. -/
theorem findNearest_singleton (Ps : List Particle) (pos : Vec3) (a0 : ℕ)
    (h : scanDist Ps pos a0 < 10 ^ 30) :
    findNearest Ps pos [a0] = (some a0, scanDist Ps pos a0) := by
  show scanStep Ps pos (none, 10 ^ 30) a0 = _
  unfold scanStep
  rw [if_pos h]

theorem c8_attach : (buildScene 3 3 1 pin00).attachmentIndices = [0] := rfl

/-- In the 3-by-3 unit-spacing scene pinned only at `(0,0)`, the rest
distance from grid coordinate `(x, y)` to the pin is `sqrt (x^2 + y^2)`. -/
theorem c8_maxDist (x y : ℕ) (hx : x < 3) (hy : y < 3) :
    scanDist (buildScene 3 3 1 pin00).P
      ((buildScene 3 3 1 pin00).P.getD (idx 3 x y) default).p 0 =
      Real.sqrt (((x : ℝ)) ^ 2 + ((y : ℝ)) ^ 2) := by
  rw [scanDist_eq, buildScene_getD 3 3 1 pin00 x y hx hy,
    show (buildScene 3 3 1 pin00).P.getD 0 default =
      initParticle 3 3 1 pin00 0 0 from
      buildScene_getD 3 3 1 pin00 0 0 (by norm_num) (by norm_num)]
  congr 1
  rw [initParticle_p, initParticle_p, Vec3.sub_def]
  show (((x : ℝ) - (3 - 1) * (1 / 2)) * 1 -
      (((0 : ℕ) : ℝ) - (3 - 1) * (1 / 2)) * 1) *
      (((x : ℝ) - (3 - 1) * (1 / 2)) * 1 -
      (((0 : ℕ) : ℝ) - (3 - 1) * (1 / 2)) * 1) +
      ((((3 : ℝ) - 1) - (y : ℝ)) * 1 - (((3 : ℝ) - 1) - ((0 : ℕ) : ℝ)) * 1) *
      ((((3 : ℝ) - 1) - (y : ℝ)) * 1 - (((3 : ℝ) - 1) - ((0 : ℕ) : ℝ)) * 1) +
      (0 - 0) * (0 - 0) = _
  push_cast
  ring

theorem c8_pin0 :
    ((buildScene 3 3 1 pin00).P.getD 0 default).pinned = true := rfl

theorem c8_none0 : lraFor (buildScene 3 3 1 pin00).P [0] 0 = none := by
  unfold lraFor
  rw [if_pos c8_pin0]

theorem c8_pin1 :
    ((buildScene 3 3 1 pin00).P.getD 1 default).pinned = false := rfl

theorem c8_hd1 : scanDist (buildScene 3 3 1 pin00).P
    ((buildScene 3 3 1 pin00).P.getD 1 default).p 0 < 10 ^ 30 := by
  have h := c8_maxDist 1 0 (by norm_num) (by norm_num)
  rw [show ((buildScene 3 3 1 pin00).P.getD 1 default) =
    ((buildScene 3 3 1 pin00).P.getD (idx 3 1 0) default) from rfl, h,
    Real.sqrt_lt' (by positivity)]
  norm_num

theorem c8_some1 : lraFor (buildScene 3 3 1 pin00).P [0] 1 =
    some ⟨1, 0, scanDist (buildScene 3 3 1 pin00).P
      ((buildScene 3 3 1 pin00).P.getD 1 default).p 0⟩ := by
  unfold lraFor
  rw [if_neg (by rw [c8_pin1]; exact Bool.false_ne_true),
    findNearest_singleton _ _ _ c8_hd1]

theorem c8_pin2 :
    ((buildScene 3 3 1 pin00).P.getD 2 default).pinned = false := rfl

theorem c8_hd2 : scanDist (buildScene 3 3 1 pin00).P
    ((buildScene 3 3 1 pin00).P.getD 2 default).p 0 < 10 ^ 30 := by
  have h := c8_maxDist 2 0 (by norm_num) (by norm_num)
  rw [show ((buildScene 3 3 1 pin00).P.getD 2 default) =
    ((buildScene 3 3 1 pin00).P.getD (idx 3 2 0) default) from rfl, h,
    Real.sqrt_lt' (by positivity)]
  norm_num

theorem c8_some2 : lraFor (buildScene 3 3 1 pin00).P [0] 2 =
    some ⟨2, 0, scanDist (buildScene 3 3 1 pin00).P
      ((buildScene 3 3 1 pin00).P.getD 2 default).p 0⟩ := by
  unfold lraFor
  rw [if_neg (by rw [c8_pin2]; exact Bool.false_ne_true),
    findNearest_singleton _ _ _ c8_hd2]

theorem c8_pin3 :
    ((buildScene 3 3 1 pin00).P.getD 3 default).pinned = false := rfl

theorem c8_hd3 : scanDist (buildScene 3 3 1 pin00).P
    ((buildScene 3 3 1 pin00).P.getD 3 default).p 0 < 10 ^ 30 := by
  have h := c8_maxDist 0 1 (by norm_num) (by norm_num)
  rw [show ((buildScene 3 3 1 pin00).P.getD 3 default) =
    ((buildScene 3 3 1 pin00).P.getD (idx 3 0 1) default) from rfl, h,
    Real.sqrt_lt' (by positivity)]
  norm_num

theorem c8_some3 : lraFor (buildScene 3 3 1 pin00).P [0] 3 =
    some ⟨3, 0, scanDist (buildScene 3 3 1 pin00).P
      ((buildScene 3 3 1 pin00).P.getD 3 default).p 0⟩ := by
  unfold lraFor
  rw [if_neg (by rw [c8_pin3]; exact Bool.false_ne_true),
    findNearest_singleton _ _ _ c8_hd3]

theorem c8_pin4 :
    ((buildScene 3 3 1 pin00).P.getD 4 default).pinned = false := rfl

theorem c8_hd4 : scanDist (buildScene 3 3 1 pin00).P
    ((buildScene 3 3 1 pin00).P.getD 4 default).p 0 < 10 ^ 30 := by
  have h := c8_maxDist 1 1 (by norm_num) (by norm_num)
  rw [show ((buildScene 3 3 1 pin00).P.getD 4 default) =
    ((buildScene 3 3 1 pin00).P.getD (idx 3 1 1) default) from rfl, h,
    Real.sqrt_lt' (by positivity)]
  norm_num

theorem c8_some4 : lraFor (buildScene 3 3 1 pin00).P [0] 4 =
    some ⟨4, 0, scanDist (buildScene 3 3 1 pin00).P
      ((buildScene 3 3 1 pin00).P.getD 4 default).p 0⟩ := by
  unfold lraFor
  rw [if_neg (by rw [c8_pin4]; exact Bool.false_ne_true),
    findNearest_singleton _ _ _ c8_hd4]

theorem c8_pin5 :
    ((buildScene 3 3 1 pin00).P.getD 5 default).pinned = false := rfl

theorem c8_hd5 : scanDist (buildScene 3 3 1 pin00).P
    ((buildScene 3 3 1 pin00).P.getD 5 default).p 0 < 10 ^ 30 := by
  have h := c8_maxDist 2 1 (by norm_num) (by norm_num)
  rw [show ((buildScene 3 3 1 pin00).P.getD 5 default) =
    ((buildScene 3 3 1 pin00).P.getD (idx 3 2 1) default) from rfl, h,
    Real.sqrt_lt' (by positivity)]
  norm_num

theorem c8_some5 : lraFor (buildScene 3 3 1 pin00).P [0] 5 =
    some ⟨5, 0, scanDist (buildScene 3 3 1 pin00).P
      ((buildScene 3 3 1 pin00).P.getD 5 default).p 0⟩ := by
  unfold lraFor
  rw [if_neg (by rw [c8_pin5]; exact Bool.false_ne_true),
    findNearest_singleton _ _ _ c8_hd5]

theorem c8_pin6 :
    ((buildScene 3 3 1 pin00).P.getD 6 default).pinned = false := rfl

theorem c8_hd6 : scanDist (buildScene 3 3 1 pin00).P
    ((buildScene 3 3 1 pin00).P.getD 6 default).p 0 < 10 ^ 30 := by
  have h := c8_maxDist 0 2 (by norm_num) (by norm_num)
  rw [show ((buildScene 3 3 1 pin00).P.getD 6 default) =
    ((buildScene 3 3 1 pin00).P.getD (idx 3 0 2) default) from rfl, h,
    Real.sqrt_lt' (by positivity)]
  norm_num

theorem c8_some6 : lraFor (buildScene 3 3 1 pin00).P [0] 6 =
    some ⟨6, 0, scanDist (buildScene 3 3 1 pin00).P
      ((buildScene 3 3 1 pin00).P.getD 6 default).p 0⟩ := by
  unfold lraFor
  rw [if_neg (by rw [c8_pin6]; exact Bool.false_ne_true),
    findNearest_singleton _ _ _ c8_hd6]

theorem c8_pin7 :
    ((buildScene 3 3 1 pin00).P.getD 7 default).pinned = false := rfl

theorem c8_hd7 : scanDist (buildScene 3 3 1 pin00).P
    ((buildScene 3 3 1 pin00).P.getD 7 default).p 0 < 10 ^ 30 := by
  have h := c8_maxDist 1 2 (by norm_num) (by norm_num)
  rw [show ((buildScene 3 3 1 pin00).P.getD 7 default) =
    ((buildScene 3 3 1 pin00).P.getD (idx 3 1 2) default) from rfl, h,
    Real.sqrt_lt' (by positivity)]
  norm_num

theorem c8_some7 : lraFor (buildScene 3 3 1 pin00).P [0] 7 =
    some ⟨7, 0, scanDist (buildScene 3 3 1 pin00).P
      ((buildScene 3 3 1 pin00).P.getD 7 default).p 0⟩ := by
  unfold lraFor
  rw [if_neg (by rw [c8_pin7]; exact Bool.false_ne_true),
    findNearest_singleton _ _ _ c8_hd7]

theorem c8_pin8 :
    ((buildScene 3 3 1 pin00).P.getD 8 default).pinned = false := rfl

theorem c8_hd8 : scanDist (buildScene 3 3 1 pin00).P
    ((buildScene 3 3 1 pin00).P.getD 8 default).p 0 < 10 ^ 30 := by
  have h := c8_maxDist 2 2 (by norm_num) (by norm_num)
  rw [show ((buildScene 3 3 1 pin00).P.getD 8 default) =
    ((buildScene 3 3 1 pin00).P.getD (idx 3 2 2) default) from rfl, h,
    Real.sqrt_lt' (by positivity)]
  norm_num

theorem c8_some8 : lraFor (buildScene 3 3 1 pin00).P [0] 8 =
    some ⟨8, 0, scanDist (buildScene 3 3 1 pin00).P
      ((buildScene 3 3 1 pin00).P.getD 8 default).p 0⟩ := by
  unfold lraFor
  rw [if_neg (by rw [c8_pin8]; exact Bool.false_ne_true),
    findNearest_singleton _ _ _ c8_hd8]

/-- The LRA constraint list of the C8 scenario, fully evaluated. -/
theorem c8_lras : (buildScene 3 3 1 pin00).lraConstraints =
    [⟨1, 0, scanDist (buildScene 3 3 1 pin00).P ((buildScene 3 3 1 pin00).P.getD 1 default).p 0⟩,
     ⟨2, 0, scanDist (buildScene 3 3 1 pin00).P ((buildScene 3 3 1 pin00).P.getD 2 default).p 0⟩,
     ⟨3, 0, scanDist (buildScene 3 3 1 pin00).P ((buildScene 3 3 1 pin00).P.getD 3 default).p 0⟩,
     ⟨4, 0, scanDist (buildScene 3 3 1 pin00).P ((buildScene 3 3 1 pin00).P.getD 4 default).p 0⟩,
     ⟨5, 0, scanDist (buildScene 3 3 1 pin00).P ((buildScene 3 3 1 pin00).P.getD 5 default).p 0⟩,
     ⟨6, 0, scanDist (buildScene 3 3 1 pin00).P ((buildScene 3 3 1 pin00).P.getD 6 default).p 0⟩,
     ⟨7, 0, scanDist (buildScene 3 3 1 pin00).P ((buildScene 3 3 1 pin00).P.getD 7 default).p 0⟩,
     ⟨8, 0, scanDist (buildScene 3 3 1 pin00).P ((buildScene 3 3 1 pin00).P.getD 8 default).p 0⟩] := by
  show (List.range (3 * 3)).filterMap (lraFor (buildScene 3 3 1 pin00).P
    (buildScene 3 3 1 pin00).attachmentIndices) = _
  rw [c8_attach, show List.range (3 * 3) = [0, 1, 2, 3, 4, 5, 6, 7, 8]
    from rfl]
  simp only [List.filterMap_cons, List.filterMap_nil, c8_none0, c8_some1, c8_some2, c8_some3, c8_some4, c8_some5, c8_some6, c8_some7, c8_some8]

/-! ## Spec-side stage decomposition (for the refinement claim C3) -/

/-- Spec stage 1 (Predict): integrate gravity, snapshot `previousPosition`,
advance the position — per non-pinned particle. -/
def predictStage (st : SimState) : SimState :=
  { st with P := st.P.map predictParticle }

/-- Spec stage 3 (Reconcile velocity): finite-difference velocity then
damping — per non-pinned particle. -/
def reconcileStage (st : SimState) : SimState :=
  { st with P := st.P.map reconcileParticle }

/-- Spec stage 2, one pass, and the whole tick as the spec words it:
predict, then exactly `iterationCount` projection passes (locals in
construction order, then LRA iff enabled), then reconcile. -/
def tickSpec (st : SimState) (iterationCount : ℕ) (lraEnabled : Bool)
    (slackFactor : ℝ) : SimState :=
  reconcileStage ((onePass lraEnabled slackFactor)^[iterationCount]
    (predictStage st))

/-! ## Claim theorems -/

/-- C1: After one `simulate` tick with LRA enabled (at least one iteration;
non-negative limits; distinct targeted particles, all in range; no
constraint targeting an anchor), every LRA constraint ends with its
particle within `maxDist * slack + 1e-6` of its anchor: the LRA pass runs
last in the final iteration, each projection clamps only its own particle,
and anchors are never moved. -/
theorem claim_C1_lra_clamp (st : SimState) (iterations : ℕ) (slack : ℝ)
    (hn : 1 ≤ iterations)
    (hlim : ∀ c ∈ st.lraConstraints, 0 ≤ c.maxDist * slack)
    (hb : ∀ c ∈ st.lraConstraints, c.particleIdx < st.P.length)
    (hpw : st.lraConstraints.Pairwise
      (fun a b => a.particleIdx ≠ b.particleIdx))
    (hanchor : ∀ c ∈ st.lraConstraints, ∀ c' ∈ st.lraConstraints,
      c.attachmentIdx ≠ c'.particleIdx)
    (c : LRAConstraint) (hc : c ∈ st.lraConstraints) :
    len (((simulate st iterations true slack).P.getD
          c.particleIdx default).p -
        ((simulate st iterations true slack).P.getD
          c.attachmentIdx default).p)
      ≤ c.maxDist * slack + 1 / 1000000 := by
  obtain ⟨m, rfl⟩ : ∃ m, iterations = m + 1 := ⟨iterations - 1, by omega⟩
  set A : SimState := { st with P := st.P.map predictParticle } with hA
  set B : SimState := doIterations true slack m A with hB
  obtain ⟨PB, hBeq, hBlen⟩ := doIterations_shape true slack m A
  set B1 : SimState := B.localConstraints.foldl projectLocal B with hB1
  obtain ⟨P1, hB1eq, hB1len⟩ := foldl_shape projectLocal
    (fun s a => projectLocal_shape s a) B.localConstraints B
  have hlra1 : B1.lraConstraints = st.lraConstraints := by
    rw [hB1, hB1eq, hB, hBeq]
  have hlen1 : B1.P.length = st.P.length := by
    rw [hB1, hB1eq]
    show P1.length = st.P.length
    rw [hB1len, hB, hBeq]
    show PB.length = st.P.length
    rw [hBlen]
    show (st.P.map predictParticle).length = st.P.length
    exact List.length_map _ _
  have hC : doIterations true slack (m + 1) A =
      st.lraConstraints.foldl (projectLRA slack) B1 := by
    rw [doIterations_eq_iterate, Function.iterate_succ_apply',
      ← doIterations_eq_iterate, ← hB]
    show B1.lraConstraints.foldl (projectLRA slack) B1 = _
    rw [hlra1]
  have hclamp := lraPass_clamp slack st.lraConstraints B1 hlim
    (fun c2 h2 => by rw [hlen1]; exact hb c2 h2) hpw hanchor c hc
  have hg1 : ((simulate st (m + 1) true slack).P.getD
      c.particleIdx default).p =
      ((st.lraConstraints.foldl (projectLRA slack) B1).P.getD
        c.particleIdx default).p := by
    show (((doIterations true slack (m + 1) A).P.map
      reconcileParticle).getD c.particleIdx default).p = _
    rw [map_reconcile_getD_p, hC]
  have hg2 : ((simulate st (m + 1) true slack).P.getD
      c.attachmentIdx default).p =
      ((st.lraConstraints.foldl (projectLRA slack) B1).P.getD
        c.attachmentIdx default).p := by
    show (((doIterations true slack (m + 1) A).P.map
      reconcileParticle).getD c.attachmentIdx default).p = _
    rw [map_reconcile_getD_p, hC]
  rw [hg1, hg2]
  exact hclamp

/-- A pinned anchor at the origin and a free particle half a unit below it,
joined by one LRA constraint of rest length 1. -/
def w1state : SimState :=
  ⟨[⟨⟨0, 0, 0⟩, ⟨0, 0, 0⟩, Vec3.zero, 0, true⟩,
    ⟨⟨0, -(1 / 2), 0⟩, ⟨0, -(1 / 2), 0⟩, Vec3.zero, 1, false⟩],
   [], [⟨1, 0, 1⟩], []⟩

/-- Witness for C1 on `w1state` with one iteration and slack 1. -/
theorem claim_C1_witness :
    len (((simulate w1state 1 true 1).P.getD 1 default).p -
        ((simulate w1state 1 true 1).P.getD 0 default).p)
      ≤ 1 * 1 + 1 / 1000000 :=
  claim_C1_lra_clamp w1state 1 1 (by norm_num)
    (by intro c hc
        simp only [w1state, List.mem_singleton] at hc
        subst hc
        show (0 : ℝ) ≤ 1 * 1
        norm_num)
    (by intro c hc
        simp only [w1state, List.mem_singleton] at hc
        subst hc
        decide)
    (by simp [w1state])
    (by intro c hc c' hc'
        simp only [w1state, List.mem_singleton] at hc hc'
        subst hc
        subst hc'
        decide)
    ⟨1, 0, 1⟩ (by simp [w1state])

/-- C2: For every pinned particle of a built scene, its position after any
sequence of ticks (any iteration counts, LRA flags and slack values) is
exactly its build-time position: no stage of a tick writes a pinned
particle's entry. -/
theorem claim_C2_pin_invariance (W H : ℕ) (s : ℝ) (pinQ : ℕ → ℕ → Bool)
    (ticks : List Tick) (j : ℕ)
    (hp : ((buildScene W H s pinQ).P.getD j default).pinned = true) :
    ((runTicks (buildScene W H s pinQ) ticks).P.getD j default).p =
      ((buildScene W H s pinQ).P.getD j default).p := by
  rw [runTicks_getD_pinned ticks (buildScene W H s pinQ) j hp
    (buildScene_free_targets W H s pinQ)]

/-- Witness for C2: the pinned corner of a 1-by-1 scene over one tick. -/
theorem claim_C2_witness :
    ((runTicks (buildScene 1 1 1 (topCorners 1)) [(2, true, 1)]).P.getD 0
        default).p =
      ((buildScene 1 1 1 (topCorners 1)).P.getD 0 default).p :=
  claim_C2_pin_invariance 1 1 1 (topCorners 1) [(2, true, 1)] 0 (by decide)

/-- C3: Every tick is exactly the three fixed stages in order: predict for
every non-pinned particle, then exactly `iterationCount` projection passes
(each: all local constraints in construction order, then, iff the LRA flag
is set, all LRA constraints in construction order), then velocity
reconciliation with a damping factor `0.99` that is strictly less than 1;
no other state change happens in a tick. -/
theorem claim_C3_tick_stages (st : SimState) (iterationCount : ℕ)
    (lraEnabled : Bool) (slackFactor : ℝ) :
    simulate st iterationCount lraEnabled slackFactor =
      tickSpec st iterationCount lraEnabled slackFactor ∧
    damping = 99 / 100 ∧ damping < 1 := by
  refine ⟨?_, rfl, by norm_num [damping]⟩
  show { doIterations lraEnabled slackFactor iterationCount
      { st with P := st.P.map predictParticle } with
      P := (doIterations lraEnabled slackFactor iterationCount
        { st with P := st.P.map predictParticle }).P.map reconcileParticle }
    = tickSpec st iterationCount lraEnabled slackFactor
  unfold tickSpec reconcileStage predictStage
  rw [doIterations_eq_iterate]

/-- C8: Building a 3-by-3 grid with spacing 1 and only grid coordinate
`(0,0)` pinned yields exactly 1 anchor, 12 local constraints, and 8 LRA
constraints, one per non-pinned particle (particles 1..8), each with
`maxDist` equal to the Euclidean distance from its grid coordinate to
`(0,0)` scaled by the spacing. -/
theorem claim_C8_three_by_three :
    (buildScene 3 3 1 pin00).attachmentIndices.length = 1 ∧
    (buildScene 3 3 1 pin00).localConstraints.length = 12 ∧
    (buildScene 3 3 1 pin00).lraConstraints.length = 8 ∧
    (buildScene 3 3 1 pin00).lraConstraints.map (fun c => c.particleIdx)
      = [1, 2, 3, 4, 5, 6, 7, 8] ∧
    ∀ c ∈ (buildScene 3 3 1 pin00).lraConstraints,
      c.maxDist = Real.sqrt (((c.particleIdx % 3 : ℕ) : ℝ) ^ 2 +
        ((c.particleIdx / 3 : ℕ) : ℝ) ^ 2) * 1 := by
  refine ⟨rfl, rfl, ?_, ?_, ?_⟩
  · rw [c8_lras]
    rfl
  · rw [c8_lras]
    rfl
  · rw [c8_lras]
    intro c hc
    simp only [List.mem_cons, List.not_mem_nil, or_false] at hc
    rcases hc with rfl | rfl | rfl | rfl | rfl | rfl | rfl | rfl
    · rw [mul_one]
      exact c8_maxDist 1 0 (by norm_num) (by norm_num)
    · rw [mul_one]
      exact c8_maxDist 2 0 (by norm_num) (by norm_num)
    · rw [mul_one]
      exact c8_maxDist 0 1 (by norm_num) (by norm_num)
    · rw [mul_one]
      exact c8_maxDist 1 1 (by norm_num) (by norm_num)
    · rw [mul_one]
      exact c8_maxDist 2 1 (by norm_num) (by norm_num)
    · rw [mul_one]
      exact c8_maxDist 0 2 (by norm_num) (by norm_num)
    · rw [mul_one]
      exact c8_maxDist 1 2 (by norm_num) (by norm_num)
    · rw [mul_one]
      exact c8_maxDist 2 2 (by norm_num) (by norm_num)

/-- C9: The simulation is deterministic: building with equal parameters and
running equal tick sequences yields equal trajectories — the embedded build
and step functions are pure. -/
theorem claim_C9_determinism (W1 W2 H1 H2 : ℕ) (s1 s2 : ℝ)
    (q1 q2 : ℕ → ℕ → Bool) (t1 t2 : List Tick)
    (hW : W1 = W2) (hH : H1 = H2) (hs : s1 = s2) (hq : q1 = q2)
    (ht : t1 = t2) :
    trajectory (buildScene W1 H1 s1 q1) t1 =
      trajectory (buildScene W2 H2 s2 q2) t2 := by
  rw [hW, hH, hs, hq, ht]

/-- Witness for C9 on a 2-by-2 grid driven for two ticks. -/
theorem claim_C9_witness :
    trajectory (buildScene 2 2 1 (topCorners 2)) [(1, true, 1), (2, false, 1)]
      = trajectory (buildScene 2 2 1 (topCorners 2))
        [(1, true, 1), (2, false, 1)] :=
  claim_C9_determinism 2 2 2 2 1 1 (topCorners 2) (topCorners 2)
    [(1, true, 1), (2, false, 1)] [(1, true, 1), (2, false, 1)]
    rfl rfl rfl rfl rfl

/-- C4: When the local solver projects a constraint between a free particle
(inverse mass 1) and a pinned particle (inverse mass 0), the entire
positional correction `dp` is applied to the free particle and the pinned
particle is unchanged; in general each endpoint receives the correction
scaled by its inverse mass over the sum of the two inverse masses, and only
non-pinned endpoints move. -/
theorem claim_C4_mass_weighted_correction (st : SimState) (c : LocalConstraint)
    (hd : ¬ len ((st.P.getD c.i default).p - (st.P.getD c.j default).p)
        < 1 / 1000000)
    (hw : ¬ (st.P.getD c.i default).w + (st.P.getD c.j default).w
        < 1 / 1000000)
    (hij : c.i ≠ c.j) (hi : c.i < st.P.length) (hj : c.j < st.P.length) :
    ((projectLocal st c).P.getD c.i default).p =
      (if (st.P.getD c.i default).pinned = true then (st.P.getD c.i default).p
       else (st.P.getD c.i default).p +
         smul ((st.P.getD c.i default).w /
           ((st.P.getD c.i default).w + (st.P.getD c.j default).w))
           (localDP st c)) ∧
    ((projectLocal st c).P.getD c.j default).p =
      (if (st.P.getD c.j default).pinned = true then (st.P.getD c.j default).p
       else (st.P.getD c.j default).p -
         smul ((st.P.getD c.j default).w /
           ((st.P.getD c.i default).w + (st.P.getD c.j default).w))
           (localDP st c)) ∧
    ((st.P.getD c.i default).w = 1 → (st.P.getD c.i default).pinned = false →
      (st.P.getD c.j default).w = 0 → (st.P.getD c.j default).pinned = true →
      ((projectLocal st c).P.getD c.i default).p =
        (st.P.getD c.i default).p + localDP st c ∧
      (projectLocal st c).P.getD c.j default = st.P.getD c.j default) := by
  refine ⟨?_, ?_, ?_⟩
  · by_cases h1 : (st.P.getD c.i default).pinned = true
    · rw [projectLocal_getD_i st c hd hw hij hi, if_pos h1, if_pos h1]
    · rw [projectLocal_getD_i st c hd hw hij hi, if_neg h1, if_neg h1]
  · by_cases h2 : (st.P.getD c.j default).pinned = true
    · rw [projectLocal_getD_j st c hd hw hij hj, if_pos h2, if_pos h2]
    · rw [projectLocal_getD_j st c hd hw hij hj, if_neg h2, if_neg h2]
  · intro hw1 hp1 hw0 hp2
    constructor
    · rw [projectLocal_getD_i st c hd hw hij hi,
        if_neg (by rw [hp1]; exact Bool.false_ne_true)]
      show (st.P.getD c.i default).p +
          smul ((st.P.getD c.i default).w /
            ((st.P.getD c.i default).w + (st.P.getD c.j default).w))
            (localDP st c) =
        (st.P.getD c.i default).p + localDP st c
      rw [hw1, hw0, show (1 : ℝ) / (1 + 0) = 1 by norm_num, Vec3.one_smul]
    · rw [projectLocal_getD_j st c hd hw hij hj, if_pos hp2]

/-- A concrete two-particle store for exercising the local solver: a free
particle at `(2,0,0)` and a pinned particle at the origin. -/
def c4state : SimState :=
  ⟨[⟨⟨2, 0, 0⟩, ⟨2, 0, 0⟩, Vec3.zero, 1, false⟩,
    ⟨⟨0, 0, 0⟩, ⟨0, 0, 0⟩, Vec3.zero, 0, true⟩], [], [], []⟩

def c4c : LocalConstraint := ⟨0, 1, 1⟩

theorem c4_dist : len ((c4state.P.getD c4c.i default).p -
    (c4state.P.getD c4c.j default).p) = 2 := by
  show Real.sqrt ((2 - 0) * (2 - 0) + (0 - 0) * (0 - 0) + (0 - 0) * (0 - 0))
    = 2
  rw [show ((2 : ℝ) - 0) * (2 - 0) + (0 - 0) * (0 - 0) + (0 - 0) * (0 - 0)
    = 2 ^ 2 by norm_num]
  exact Real.sqrt_sq (by norm_num)

/-- Witness for C4 at the concrete store `c4state`. -/
theorem claim_C4_witness :
    ((projectLocal c4state c4c).P.getD c4c.i default).p =
      (if (c4state.P.getD c4c.i default).pinned = true
        then (c4state.P.getD c4c.i default).p
       else (c4state.P.getD c4c.i default).p +
         smul ((c4state.P.getD c4c.i default).w /
           ((c4state.P.getD c4c.i default).w +
             (c4state.P.getD c4c.j default).w))
           (localDP c4state c4c)) ∧
    ((projectLocal c4state c4c).P.getD c4c.j default).p =
      (if (c4state.P.getD c4c.j default).pinned = true
        then (c4state.P.getD c4c.j default).p
       else (c4state.P.getD c4c.j default).p -
         smul ((c4state.P.getD c4c.j default).w /
           ((c4state.P.getD c4c.i default).w +
             (c4state.P.getD c4c.j default).w))
           (localDP c4state c4c)) ∧
    ((c4state.P.getD c4c.i default).w = 1 →
      (c4state.P.getD c4c.i default).pinned = false →
      (c4state.P.getD c4c.j default).w = 0 →
      (c4state.P.getD c4c.j default).pinned = true →
      ((projectLocal c4state c4c).P.getD c4c.i default).p =
        (c4state.P.getD c4c.i default).p + localDP c4state c4c ∧
      (projectLocal c4state c4c).P.getD c4c.j default =
        c4state.P.getD c4c.j default) :=
  claim_C4_mass_weighted_correction c4state c4c
    (by rw [c4_dist]; norm_num)
    (by show ¬ (1 : ℝ) + 0 < 1 / 1000000; norm_num)
    (by decide) (by decide) (by decide)

/-- C5: The LRA projection is unilateral: at or under the limit
`maxDist * slack` it returns the state (all fields) unchanged; strictly
beyond the limit (and above the degeneracy epsilon) it rewrites the
particle's position to `anchor + dir * (limit / currentDist)`, which for a
non-negative limit and a well-formed constraint places the particle exactly
on the sphere of radius `limit` around the anchor. -/
theorem claim_C5_lra_unilateral (slack : ℝ) (st : SimState)
    (c : LRAConstraint) :
    (len ((st.P.getD c.particleIdx default).p -
        (st.P.getD c.attachmentIdx default).p) ≤ c.maxDist * slack →
      projectLRA slack st c = st) ∧
    (c.maxDist * slack <
        len ((st.P.getD c.particleIdx default).p -
          (st.P.getD c.attachmentIdx default).p) →
      1 / 1000000 ≤
        len ((st.P.getD c.particleIdx default).p -
          (st.P.getD c.attachmentIdx default).p) →
      projectLRA slack st c =
        { st with
          P := st.P.set c.particleIdx
            ({ st.P.getD c.particleIdx default with
               p := (st.P.getD c.attachmentIdx default).p +
                 smul (c.maxDist * slack /
                   len ((st.P.getD c.particleIdx default).p -
                     (st.P.getD c.attachmentIdx default).p))
                   ((st.P.getD c.particleIdx default).p -
                     (st.P.getD c.attachmentIdx default).p) }) } ∧
      (0 ≤ c.maxDist * slack → c.particleIdx ≠ c.attachmentIdx →
        c.particleIdx < st.P.length →
        len (((projectLRA slack st c).P.getD c.particleIdx default).p -
            ((projectLRA slack st c).P.getD c.attachmentIdx default).p) =
          c.maxDist * slack)) :=
  ⟨fun h => projectLRA_of_le slack st c h,
   fun h1 h2 =>
    ⟨projectLRA_of_gt slack st c h1 h2,
     fun hlim hne hb => projectLRA_dist_of_gt slack st c h1 h2 hlim hne hb⟩⟩

/-- C6: In a built scene (with at least one pin, all rest distances under
the `1e30` sentinel), every LRA constraint belongs to a free particle and
points at a pinned attachment realizing the minimum rest distance, with
ties won by the earliest pin in pin-index order (strictly closer than every
earlier pin, no farther than every later one), `maxDist` being that
distance; every free particle gets exactly one constraint and pinned
particles get none. -/
theorem claim_C6_nearest_anchor (W H : ℕ) (s : ℝ) (pinQ : ℕ → ℕ → Bool)
    (hne : (buildScene W H s pinQ).attachmentIndices ≠ [])
    (hsmall : ∀ i, i < W * H →
      ∀ a ∈ (buildScene W H s pinQ).attachmentIndices,
        scanDist (buildScene W H s pinQ).P
          ((buildScene W H s pinQ).P.getD i default).p a < 10 ^ 30) :
    (∀ c ∈ (buildScene W H s pinQ).lraConstraints,
      ((buildScene W H s pinQ).P.getD c.particleIdx default).pinned
          = false ∧
      ((buildScene W H s pinQ).P.getD c.attachmentIdx default).pinned
          = true ∧
      c.maxDist = scanDist (buildScene W H s pinQ).P
        ((buildScene W H s pinQ).P.getD c.particleIdx default).p
        c.attachmentIdx ∧
      ∃ l₁ l₂,
        (buildScene W H s pinQ).attachmentIndices =
          l₁ ++ c.attachmentIdx :: l₂ ∧
        (∀ a ∈ l₁, c.maxDist < scanDist (buildScene W H s pinQ).P
          ((buildScene W H s pinQ).P.getD c.particleIdx default).p a) ∧
        (∀ a ∈ l₂, c.maxDist ≤ scanDist (buildScene W H s pinQ).P
          ((buildScene W H s pinQ).P.getD c.particleIdx default).p a)) ∧
    (∀ i, i < W * H →
      ((buildScene W H s pinQ).P.getD i default).pinned = false →
      ((buildScene W H s pinQ).lraConstraints.countP
        (fun c => c.particleIdx == i)) = 1) ∧
    (∀ i, ((buildScene W H s pinQ).P.getD i default).pinned = true →
      ((buildScene W H s pinQ).lraConstraints.countP
        (fun c => c.particleIdx == i)) = 0) := by
  refine ⟨?_, ?_, ?_⟩
  · intro c hc
    obtain ⟨i, hi, hfi⟩ := List.mem_filterMap.mp hc
    obtain ⟨hidx, hpin, hfound⟩ := lraFor_spec _ _ _ _ hfi
    obtain ⟨l₁, a, l₂, hsplit, heq, h₁, h₂⟩ :=
      findNearest_found (buildScene W H s pinQ).P
        ((buildScene W H s pinQ).P.getD i default).p
        (buildScene W H s pinQ).attachmentIndices hne
        (hsmall i (List.mem_range.mp hi))
    have hfound' : findNearest (buildScene W H s pinQ).P
        ((buildScene W H s pinQ).P.getD i default).p
        (buildScene W H s pinQ).attachmentIndices =
        (some c.attachmentIdx, c.maxDist) := hfound
    rw [hfound'] at heq
    have ha : c.attachmentIdx = a := Option.some.inj (congrArg Prod.fst heq)
    have hm : c.maxDist = scanDist (buildScene W H s pinQ).P
        ((buildScene W H s pinQ).P.getD i default).p a :=
      congrArg Prod.snd heq
    have hamem : a ∈ (buildScene W H s pinQ).attachmentIndices := by
      rw [hsplit]
      exact List.mem_append_right l₁ (List.mem_cons_self a l₂)
    refine ⟨by rw [hidx]; exact hpin, ?_, ?_, l₁, l₂, ?_, ?_, ?_⟩
    · rw [ha]
      exact attach_pinned W H s pinQ a hamem
    · rw [hidx, ha]
      exact hm
    · rw [ha]
      exact hsplit
    · intro x hx
      rw [hidx, hm]
      exact h₁ x hx
    · intro x hx
      rw [hidx, hm]
      exact h₂ x hx
  · intro i hi hfree
    obtain ⟨l₁, a, l₂, hsplit, heq, h₁, h₂⟩ :=
      findNearest_found (buildScene W H s pinQ).P
        ((buildScene W H s pinQ).P.getD i default).p
        (buildScene W H s pinQ).attachmentIndices hne (hsmall i hi)
    have hsome : lraFor (buildScene W H s pinQ).P
        (buildScene W H s pinQ).attachmentIndices i =
        some ⟨i, a, scanDist (buildScene W H s pinQ).P
          ((buildScene W H s pinQ).P.getD i default).p a⟩ := by
      unfold lraFor
      rw [if_neg (by rw [hfree]; exact Bool.false_ne_true), heq]
    have hcount := countP_filterMap_targets
      (lraFor (buildScene W H s pinQ).P
        (buildScene W H s pinQ).attachmentIndices)
      (fun k c h => (lraFor_spec _ _ _ _ h).1)
      (List.range (W * H)) (List.nodup_range (W * H)) i
    rw [if_pos ⟨List.mem_range.mpr hi, by rw [hsome]; rfl⟩] at hcount
    exact hcount
  · intro i hpin
    have hnone : lraFor (buildScene W H s pinQ).P
        (buildScene W H s pinQ).attachmentIndices i = none := by
      unfold lraFor
      rw [if_pos hpin]
    have hcount := countP_filterMap_targets
      (lraFor (buildScene W H s pinQ).P
        (buildScene W H s pinQ).attachmentIndices)
      (fun k c h => (lraFor_spec _ _ _ _ h).1)
      (List.range (W * H)) (List.nodup_range (W * H)) i
    rw [if_neg (fun h => by rw [hnone] at h; exact Bool.false_ne_true h.2)]
      at hcount
    exact hcount

theorem c6_attach :
    (buildScene 1 2 1 (topCorners 1)).attachmentIndices = [0] := rfl

theorem c6_hne : (buildScene 1 2 1 (topCorners 1)).attachmentIndices ≠ [] := by
  rw [c6_attach]
  exact List.cons_ne_nil 0 []

theorem c6_hsmall : ∀ i, i < 1 * 2 →
    ∀ a ∈ (buildScene 1 2 1 (topCorners 1)).attachmentIndices,
      scanDist (buildScene 1 2 1 (topCorners 1)).P
        ((buildScene 1 2 1 (topCorners 1)).P.getD i default).p a
        < 10 ^ 30 := by
  intro i hi a ha
  rw [c6_attach] at ha
  have haz : a = 0 := List.mem_singleton.mp ha
  subst haz
  have hcase : i = 0 ∨ i = 1 := by omega
  have h0 : (buildScene 1 2 1 (topCorners 1)).P.getD 0 default
      = initParticle 1 2 1 (topCorners 1) 0 0 :=
    buildScene_getD 1 2 1 (topCorners 1) 0 0 (by norm_num) (by norm_num)
  have h1 : (buildScene 1 2 1 (topCorners 1)).P.getD 1 default
      = initParticle 1 2 1 (topCorners 1) 0 1 :=
    buildScene_getD 1 2 1 (topCorners 1) 0 1 (by norm_num) (by norm_num)
  rcases hcase with rfl | rfl
  · show len (((buildScene 1 2 1 (topCorners 1)).P.getD 0 default).p -
      ((buildScene 1 2 1 (topCorners 1)).P.getD 0 default).p) < 10 ^ 30
    rw [len_sub_self]
    positivity
  · show len (((buildScene 1 2 1 (topCorners 1)).P.getD 1 default).p -
      ((buildScene 1 2 1 (topCorners 1)).P.getD 0 default).p) < 10 ^ 30
    rw [h1, h0]
    apply len_lt_big
    norm_num [initParticle, topCorners, Vec3.sub_def, Vec3.dot]

/-- Witness for C6 on a 1-by-2 grid with the top particle pinned. -/
theorem claim_C6_witness :
    (∀ c ∈ (buildScene 1 2 1 (topCorners 1)).lraConstraints,
      ((buildScene 1 2 1 (topCorners 1)).P.getD c.particleIdx
          default).pinned = false ∧
      ((buildScene 1 2 1 (topCorners 1)).P.getD c.attachmentIdx
          default).pinned = true ∧
      c.maxDist = scanDist (buildScene 1 2 1 (topCorners 1)).P
        ((buildScene 1 2 1 (topCorners 1)).P.getD c.particleIdx default).p
        c.attachmentIdx ∧
      ∃ l₁ l₂,
        (buildScene 1 2 1 (topCorners 1)).attachmentIndices =
          l₁ ++ c.attachmentIdx :: l₂ ∧
        (∀ a ∈ l₁, c.maxDist < scanDist (buildScene 1 2 1 (topCorners 1)).P
          ((buildScene 1 2 1 (topCorners 1)).P.getD c.particleIdx
            default).p a) ∧
        (∀ a ∈ l₂, c.maxDist ≤ scanDist (buildScene 1 2 1 (topCorners 1)).P
          ((buildScene 1 2 1 (topCorners 1)).P.getD c.particleIdx
            default).p a)) ∧
    (∀ i, i < 1 * 2 →
      ((buildScene 1 2 1 (topCorners 1)).P.getD i default).pinned = false →
      ((buildScene 1 2 1 (topCorners 1)).lraConstraints.countP
        (fun c => c.particleIdx == i)) = 1) ∧
    (∀ i, ((buildScene 1 2 1 (topCorners 1)).P.getD i default).pinned
        = true →
      ((buildScene 1 2 1 (topCorners 1)).lraConstraints.countP
        (fun c => c.particleIdx == i)) = 0) :=
  claim_C6_nearest_anchor 1 2 1 (topCorners 1) c6_hne c6_hsmall

/-- C7: The local solver's degenerate cases are silent no-ops returning the
state unchanged: current distance below `1e-6`, or combined inverse mass
below `1e-6` (both endpoints immovable). -/
theorem claim_C7_local_degenerate_noop (st : SimState) (c : LocalConstraint) :
    (len ((st.P.getD c.i default).p - (st.P.getD c.j default).p)
        < 1 / 1000000 →
      projectLocal st c = st) ∧
    ((st.P.getD c.i default).w + (st.P.getD c.j default).w < 1 / 1000000 →
      projectLocal st c = st) := by
  constructor
  · intro h
    unfold projectLocal
    rw [if_pos h]
  · intro h
    unfold projectLocal
    by_cases h0 : len ((st.P.getD c.i default).p - (st.P.getD c.j default).p)
        < 1 / 1000000
    · rw [if_pos h0]
    · rw [if_neg h0, if_pos h]

/-- C10: One LRA projection modifies at most the position of the particle at
`particleIdx`: both constraint sets and the attachment list are unchanged,
the store keeps its length, every other entry is untouched, and the moved
particle keeps its `old_p`, `v`, `w` and `pinned` fields. -/
theorem claim_C10_lra_frame (slack : ℝ) (st : SimState) (c : LRAConstraint) :
    (projectLRA slack st c).localConstraints = st.localConstraints ∧
    (projectLRA slack st c).lraConstraints = st.lraConstraints ∧
    (projectLRA slack st c).attachmentIndices = st.attachmentIndices ∧
    (projectLRA slack st c).P.length = st.P.length ∧
    (∀ j, j ≠ c.particleIdx →
      (projectLRA slack st c).P.getD j default = st.P.getD j default) ∧
    ((projectLRA slack st c).P.getD c.particleIdx default).old_p =
      (st.P.getD c.particleIdx default).old_p ∧
    ((projectLRA slack st c).P.getD c.particleIdx default).v =
      (st.P.getD c.particleIdx default).v ∧
    ((projectLRA slack st c).P.getD c.particleIdx default).w =
      (st.P.getD c.particleIdx default).w ∧
    ((projectLRA slack st c).P.getD c.particleIdx default).pinned =
      (st.P.getD c.particleIdx default).pinned := by
  obtain ⟨h1, h2, h3⟩ := projectLRA_constraints slack st c
  obtain ⟨h4, h5, h6, h7⟩ := projectLRA_fields slack st c
  exact ⟨h1, h2, h3, projectLRA_length slack st c,
    fun j hj => projectLRA_getD_ne slack st c j hj, h4, h5, h6, h7⟩

end

end LRA
